import Mathlib

/-
Formal model of the event-collection normalization pipeline
(timestamp_utils.py, filters.py, geolocation.py, URL_Extraction.py).
Strings are modelled as `List Char`; Python string methods (strip, upper,
lower, split, substring membership) are embedded below.  Machine dates and
Unix timestamps are modelled with Nat/Int arithmetic; the proleptic
Gregorian day count follows the standard civil-days computation used by
CPython's datetime for the relevant year range.
-/

-- ### Basic Python string primitives

/-- ASCII whitespace recognised by Python str.strip / regex \s
(the source data is ASCII; Unicode whitespace is not modelled). -/
def isPySpace (c : Char) : Bool :=
  c = ' ' || c = '\t' || c = '\n' || c = '\r' || c = '\x0b' || c = '\x0c'

/-- Python str.strip(): drop leading and trailing whitespace. -/
def pyStrip (s : List Char) : List Char :=
  (((s.dropWhile isPySpace).reverse).dropWhile isPySpace).reverse

/-- Python str.upper() restricted to ASCII. -/
def pyUpper (s : List Char) : List Char :=
  s.map Char.toUpper

/-- Python str.lower() restricted to ASCII. -/
def pyLower (s : List Char) : List Char :=
  s.map Char.toLower

/-- Does `pre` occur at the head of `s`? -/
def headMatch : List Char → List Char → Bool
  | [], _ => true
  | _ :: _, [] => false
  | a :: as, b :: bs => a = b && headMatch as bs

/-- Split `s` at the first occurrence of `sep`, returning the text before
the occurrence and the text after it. `none` when `sep` does not occur. -/
def splitFirst (sep : List Char) : List Char → Option (List Char × List Char)
  | [] => none
  | c :: rest =>
    if headMatch sep (c :: rest) then some ([], (c :: rest).drop sep.length)
    else
      match splitFirst sep rest with
      | some (a, b) => some (c :: a, b)
      | none => none

/-- Python `sep in s` (for nonempty `sep`). -/
def containsSub (sep s : List Char) : Bool :=
  (splitFirst sep s).isSome

/-- Fuel-driven worker for Python str.split(sep). -/
def pySplitAux (sep : List Char) : Nat → List Char → List (List Char)
  | 0, s => [s]
  | Nat.succ n, s =>
    match splitFirst sep s with
    | none => [s]
    | some (a, b) => a :: pySplitAux sep n b

/-- Python str.split(sep) for a nonempty separator: the list of chunks
between the occurrences of `sep`, in order. -/
def pySplit (sep s : List Char) : List (List Char) :=
  pySplitAux sep (s.length + 1) s

-- ### Digits and numbers

def isDigitCh (c : Char) : Bool :=
  '0' ≤ c && c ≤ '9'

def digitVal (c : Char) : Nat :=
  c.toNat - 48

def natOfDigits (s : List Char) : Nat :=
  s.foldl (fun acc c => acc * 10 + digitVal c) 0

/-- Python int(str): optional surrounding whitespace, optional sign, a
nonempty digit run.  (Digit-group underscores are not modelled; none of
the pipeline inputs use them.) -/
def pyInt (s : List Char) : Option Int :=
  let t := pyStrip s
  match t with
  | '-' :: ds =>
    if ds ≠ [] ∧ ds.all isDigitCh then some (-(natOfDigits ds : Int)) else none
  | '+' :: ds =>
    if ds ≠ [] ∧ ds.all isDigitCh then some (natOfDigits ds : Int) else none
  | ds =>
    if ds ≠ [] ∧ ds.all isDigitCh then some (natOfDigits ds : Int) else none

-- ### Calendar dates (datetime.date / datetime.datetime date part)

structure PyDate where
  year : Nat
  month : Nat
  day : Nat
deriving DecidableEq, Repr

def isLeapYear (y : Nat) : Bool :=
  (y % 4 = 0 && y % 100 ≠ 0) || y % 400 = 0

def daysInMonth (y m : Nat) : Nat :=
  if m = 2 then (if isLeapYear y then 29 else 28)
  else if m = 4 ∨ m = 6 ∨ m = 9 ∨ m = 11 then 30
  else 31

/-- The validation performed by the datetime constructor: year 1..9999,
month 1..12, day within the month.  strptime raises (and the caller falls
through to the next format) when this fails. -/
def mkValidDate (y m d : Nat) : Option PyDate :=
  if 1 ≤ y ∧ y ≤ 9999 ∧ 1 ≤ m ∧ m ≤ 12 ∧ 1 ≤ d ∧ d ≤ daysInMonth y m then
    some ⟨y, m, d⟩
  else none

/-- Days between 1970-01-01 and the given civil date (standard
days-from-civil computation; exact for years 1..9999). -/
def epochDays (dt : PyDate) : Int :=
  let y2 : Nat := if dt.month ≤ 2 then dt.year - 1 else dt.year
  let era : Nat := y2 / 400
  let yoe : Nat := y2 - era * 400
  let mp : Nat := if dt.month > 2 then dt.month - 3 else dt.month + 9
  let doy : Nat := (153 * mp + 2) / 5 + dt.day - 1
  let doe : Nat := yoe * 365 + yoe / 4 - yoe / 100 + doy
  (era * 146097 + doe : Nat) - (719468 : Int)

-- ### strptime date-format matchers
-- CPython strptime compiles each directive to a regex fragment:
--   %Y -> \d\d\d\d          %m -> (1[0-2]|0[1-9]|[1-9])
--   %d -> (3[01]|[12]\d|0[1-9]|[1-9])
-- and requires the whole string to match; the resulting fields then pass
-- through the datetime constructor (mkValidDate).  The candidate lists
-- below enumerate the regex alternatives in priority order; `firstSome`
-- realises the backtracking into the rest of the format.

def firstSome (cands : List α) (k : α → Option β) : Option β :=
  match cands with
  | [] => none
  | c :: cs =>
    match k c with
    | some b => some b
    | none => firstSome cs k

/-- Regex (1[0-2]|0[1-9]|[1-9]) for %m and %I: value and rest, candidates
in the order the regex alternation tries them. -/
def monthFieldMatches : List Char → List (Nat × List Char)
  | [] => []
  | [c] => if '1' ≤ c && c ≤ '9' then [(digitVal c, [])] else []
  | c1 :: c2 :: rest =>
    (if c1 = '1' && ('0' ≤ c2 && c2 ≤ '2') then [(10 + digitVal c2, rest)] else []) ++
    (if c1 = '0' && ('1' ≤ c2 && c2 ≤ '9') then [(digitVal c2, rest)] else []) ++
    (if '1' ≤ c1 && c1 ≤ '9' then [(digitVal c1, c2 :: rest)] else [])

/-- Regex (3[01]|[12]\d|0[1-9]|[1-9]) for %d. -/
def dayFieldMatches : List Char → List (Nat × List Char)
  | [] => []
  | [c] => if '1' ≤ c && c ≤ '9' then [(digitVal c, [])] else []
  | c1 :: c2 :: rest =>
    (if c1 = '3' && (c2 = '0' || c2 = '1') then [(30 + digitVal c2, rest)] else []) ++
    (if (c1 = '1' || c1 = '2') && isDigitCh c2 then [(10 * digitVal c1 + digitVal c2, rest)] else []) ++
    (if c1 = '0' && ('1' ≤ c2 && c2 ≤ '9') then [(digitVal c2, rest)] else []) ++
    (if '1' ≤ c1 && c1 ≤ '9' then [(digitVal c1, c2 :: rest)] else [])

/-- strptime with format %Y-%m-%d (full-string match). -/
def parseFmtYmd (s : List Char) : Option PyDate :=
  match s with
  | y1 :: y2 :: y3 :: y4 :: '-' :: rest =>
    if isDigitCh y1 && isDigitCh y2 && isDigitCh y3 && isDigitCh y4 then
      firstSome (monthFieldMatches rest) fun mc =>
        match mc.2 with
        | '-' :: r2 =>
          firstSome (dayFieldMatches r2) fun dc =>
            match dc.2 with
            | [] => mkValidDate (natOfDigits [y1, y2, y3, y4]) mc.1 dc.1
            | _ => none
        | _ => none
    else none
  | _ => none

/-- Shared tail of the sep-joined formats: <sep>%Y at the end of the
string, exactly four digits then end of input. -/
def yearTail (sepCh : Char) (mk : Nat → Option PyDate) : List Char → Option PyDate
  | c2 :: y1 :: y2 :: y3 :: y4 :: [] =>
    if c2 = sepCh && isDigitCh y1 && isDigitCh y2 && isDigitCh y3 && isDigitCh y4 then
      mk (natOfDigits [y1, y2, y3, y4])
    else none
  | _ => none

/-- strptime with format %d<sep>%m<sep>%Y (used with sep = / and sep = -). -/
def parseFmtDmy (sepCh : Char) (s : List Char) : Option PyDate :=
  firstSome (dayFieldMatches s) fun dc =>
    match dc.2 with
    | c :: r2 =>
      if c = sepCh then
        firstSome (monthFieldMatches r2) fun mc =>
          yearTail sepCh (fun y => mkValidDate y mc.1 dc.1) mc.2
      else none
    | [] => none

/-- strptime with format %m<sep>%d<sep>%Y (used with sep = / and sep = -). -/
def parseFmtMdy (sepCh : Char) (s : List Char) : Option PyDate :=
  firstSome (monthFieldMatches s) fun mc =>
    match mc.2 with
    | c :: r2 =>
      if c = sepCh then
        firstSome (dayFieldMatches r2) fun dc =>
          yearTail sepCh (fun y => mkValidDate y mc.1 dc.1) dc.2
      else none
    | [] => none

/-- The format cascade tried by extract_date_range for each side:
['%Y-%m-%d', '%d/%m/%Y', '%m/%d/%Y', '%d-%m-%Y', '%m-%d-%Y'],
first success wins. -/
def dateFormatsParse (s : List Char) : Option PyDate :=
  match parseFmtYmd s with
  | some d => some d
  | none =>
  match parseFmtDmy '/' s with
  | some d => some d
  | none =>
  match parseFmtMdy '/' s with
  | some d => some d
  | none =>
  match parseFmtDmy '-' s with
  | some d => some d
  | none => parseFmtMdy '-' s

-- ### extract_date_range (timestamp_utils.py lines 80-132)

/-- One pass of the range-separator loop: `sd`/`ed` are the mutable
start_date/end_date locals, which persist across loop iterations. -/
def rangeSepLoop (ds : List Char) :
    List (List Char) → Option PyDate → Option PyDate → Option PyDate × Option PyDate
  | [], _, _ => (none, none)
  | sep :: more, sd, ed =>
    if containsSub sep ds then
      match pySplit sep ds with
      | [a, b] =>
        let sd2 := match dateFormatsParse (pyStrip a) with
          | some d => some d
          | none => sd
        let ed2 := match dateFormatsParse (pyStrip b) with
          | some d => some d
          | none => ed
        match sd2, ed2 with
        | some d1, some d2 => (some d1, some d2)
        | _, _ => rangeSepLoop ds more sd2 ed2
      | _ => rangeSepLoop ds more sd ed
    else rangeSepLoop ds more sd ed

/-- timestamp_utils.extract_date_range: a single date parses to (d, d);
a string containing ' to ' or ' - ' goes through the range loop over the
separators [' to ', ' - ', ' until ', ' through ']. -/
def extract_date_range (s : List Char) : Option PyDate × Option PyDate :=
  if s = [] then (none, none)
  else
    let ds := pyStrip s
    if ¬ containsSub " to ".toList ds ∧ ¬ containsSub " - ".toList ds then
      match dateFormatsParse ds with
      | some d => (some d, some d)
      | none => (none, none)
    else
      rangeSepLoop ds
        [" to ".toList, " - ".toList, " until ".toList, " through ".toList]
        none none

-- ### strptime time-format matchers (parse_time_to_minutes)
-- Relevant regex fragments compiled by CPython strptime:
--   %I -> (1[0-2]|0[1-9]|[1-9])   %H -> (2[0-3]|[0-1]\d|\d)
--   %M -> ([0-5]\d|\d)            %S -> (6[0-1]|[0-5]\d|\d)
--   %p -> AM|PM (case-insensitive); whitespace in the format matches \s+.

def hour12FieldMatches : List Char → List (Nat × List Char) :=
  monthFieldMatches

def hour24FieldMatches : List Char → List (Nat × List Char)
  | [] => []
  | [c] => if isDigitCh c then [(digitVal c, [])] else []
  | c1 :: c2 :: rest =>
    (if c1 = '2' && ('0' ≤ c2 && c2 ≤ '3') then [(20 + digitVal c2, rest)] else []) ++
    (if (c1 = '0' || c1 = '1') && isDigitCh c2 then [(10 * digitVal c1 + digitVal c2, rest)] else []) ++
    (if isDigitCh c1 then [(digitVal c1, c2 :: rest)] else [])

def minuteFieldMatches : List Char → List (Nat × List Char)
  | [] => []
  | [c] => if isDigitCh c then [(digitVal c, [])] else []
  | c1 :: c2 :: rest =>
    (if ('0' ≤ c1 && c1 ≤ '5') && isDigitCh c2 then [(10 * digitVal c1 + digitVal c2, rest)] else []) ++
    (if isDigitCh c1 then [(digitVal c1, c2 :: rest)] else [])

def secondFieldMatches : List Char → List (Nat × List Char)
  | [] => []
  | [c] => if isDigitCh c then [(digitVal c, [])] else []
  | c1 :: c2 :: rest =>
    (if c1 = '6' && (c2 = '0' || c2 = '1') then [(60 + digitVal c2, rest)] else []) ++
    (if ('0' ≤ c1 && c1 ≤ '5') && isDigitCh c2 then [(10 * digitVal c1 + digitVal c2, rest)] else []) ++
    (if isDigitCh c1 then [(digitVal c1, c2 :: rest)] else [])

/-- \s+ : at least one whitespace character, consumed greedily. -/
def wsPlus : List Char → Option (List Char)
  | c :: rest => if isPySpace c then some (rest.dropWhile isPySpace) else none
  | [] => none

def meridiemMatch : List Char → Option (Bool × List Char)
  | a :: m :: rest =>
    if (a = 'A' || a = 'a') && (m = 'M' || m = 'm') then some (false, rest)
    else if (a = 'P' || a = 'p') && (m = 'M' || m = 'm') then some (true, rest)
    else none
  | _ => none

/-- 12-hour to 24-hour conversion performed by strptime for %I with %p. -/
def applyMeridiem (h : Nat) (pm : Bool) : Nat :=
  if pm then (if h = 12 then 12 else h + 12)
  else (if h = 12 then 0 else h)

/-- strptime %I:%M %p, as minutes since midnight. -/
def fmtIMSpP (s : List Char) : Option Nat :=
  firstSome (hour12FieldMatches s) fun hc =>
    match hc.2 with
    | ':' :: r2 =>
      firstSome (minuteFieldMatches r2) fun mc =>
        match wsPlus mc.2 with
        | some r3 =>
          match meridiemMatch r3 with
          | some (pm, []) => some (applyMeridiem hc.1 pm * 60 + mc.1)
          | _ => none
        | none => none
    | _ => none

/-- strptime %I %p. -/
def fmtISpP (s : List Char) : Option Nat :=
  firstSome (hour12FieldMatches s) fun hc =>
    match wsPlus hc.2 with
    | some r2 =>
      match meridiemMatch r2 with
      | some (pm, []) => some (applyMeridiem hc.1 pm * 60)
      | _ => none
    | none => none

/-- strptime %I:%M%p. -/
def fmtIMP (s : List Char) : Option Nat :=
  firstSome (hour12FieldMatches s) fun hc =>
    match hc.2 with
    | ':' :: r2 =>
      firstSome (minuteFieldMatches r2) fun mc =>
        match meridiemMatch mc.2 with
        | some (pm, []) => some (applyMeridiem hc.1 pm * 60 + mc.1)
        | _ => none
    | _ => none

/-- strptime %I%p. -/
def fmtIP (s : List Char) : Option Nat :=
  firstSome (hour12FieldMatches s) fun hc =>
    match meridiemMatch hc.2 with
    | some (pm, []) => some (applyMeridiem hc.1 pm * 60)
    | _ => none

/-- strptime %H:%M. -/
def fmtHM (s : List Char) : Option Nat :=
  firstSome (hour24FieldMatches s) fun hc =>
    match hc.2 with
    | ':' :: r2 =>
      firstSome (minuteFieldMatches r2) fun mc =>
        match mc.2 with
        | [] => some (hc.1 * 60 + mc.1)
        | _ => none
    | _ => none

/-- strptime %H:%M:%S (seconds are validated by the datetime constructor
and then discarded). -/
def fmtHMS (s : List Char) : Option Nat :=
  firstSome (hour24FieldMatches s) fun hc =>
    match hc.2 with
    | ':' :: r2 =>
      firstSome (minuteFieldMatches r2) fun mc =>
        match mc.2 with
        | ':' :: r3 =>
          firstSome (secondFieldMatches r3) fun sc =>
            match sc.2 with
            | [] => if sc.1 ≤ 59 then some (hc.1 * 60 + mc.1) else none
            | _ => none
        | _ => none
    | _ => none

/-- strptime %H. -/
def fmtH (s : List Char) : Option Nat :=
  firstSome (hour24FieldMatches s) fun hc =>
    match hc.2 with
    | [] => some (hc.1 * 60)
    | _ => none

def timePlaceholders : List (List Char) :=
  ["TBA".toList, "TBD".toList, "TO BE ANNOUNCED".toList, "TO BE DETERMINED".toList,
   "N/A".toList]

/-- timestamp_utils.parse_time_to_minutes: minutes since midnight, 0 when
nothing parses; the final colon-split fallback uses raw int() conversion
and so can yield values of 24 hours or more (or negative values). -/
def parse_time_to_minutes (s : List Char) : Int :=
  if s = [] then 0
  else
    let t := pyUpper (pyStrip s)
    if timePlaceholders.contains t then 0
    else
      let viaFmt : Option Nat :=
        if containsSub "AM".toList t || containsSub "PM".toList t then
          match fmtIMSpP t with
          | some v => some v
          | none =>
            match fmtISpP t with
            | some v => some v
            | none =>
              match fmtIMP t with
              | some v => some v
              | none => fmtIP t
        else
          match fmtHM t with
          | some v => some v
          | none =>
            match fmtHMS t with
            | some v => some v
            | none => fmtH t
      match viaFmt with
      | some v => (v : Int)
      | none =>
        if containsSub ":".toList t then
          match pySplit ":".toList t with
          | [a, b] =>
            match pyInt a, pyInt b with
            | some h, some m => h * 60 + m
            | _, _ => 0
          | _ => 0
        else 0

-- ### extract_time_range_from_complex_string
-- Pattern 1: (\d{1,2}:\d{2}\s*(?:am|pm|AM|PM))\s*[-..]\s*(same), IGNORECASE
-- Pattern 2: (\d{1,2}:\d{2})\s*[-..]\s*(\d{1,2}:\d{2})
-- Patterns 3-5 share (\d{1,2}:\d{2}\s*(?:am|pm))|(\d{1,2}\s*(?:am|pm)).
-- re.search scans for the leftmost match; at one position the regex tries
-- the two-digit hour before the one-digit hour, and the \s* runs are
-- greedy with no productive backtracking (the following token is never a
-- whitespace character), which the matchers below realise directly.

/-- Rest of \d{1,2}:\d{2}\s*(am|pm) after the hour digits; returns the
matched text (the capture group) and the remaining input. -/
def matchTime12Tail (pre : List Char) : List Char → Option (List Char × List Char)
  | ':' :: d1 :: d2 :: r =>
    if isDigitCh d1 && isDigitCh d2 then
      let ws := r.takeWhile isPySpace
      let r2 := r.dropWhile isPySpace
      match r2 with
      | a :: m :: rest =>
        if (a = 'a' || a = 'A' || a = 'p' || a = 'P') && (m = 'm' || m = 'M') then
          some (pre ++ ':' :: d1 :: d2 :: (ws ++ [a, m]), rest)
        else none
      | _ => none
    else none
  | _ => none

def matchTime12At : List Char → Option (List Char × List Char)
  | c1 :: c2 :: rest =>
    if isDigitCh c1 then
      if isDigitCh c2 then
        match matchTime12Tail [c1, c2] rest with
        | some res => some res
        | none => matchTime12Tail [c1] (c2 :: rest)
      else matchTime12Tail [c1] (c2 :: rest)
    else none
  | _ => none

def matchHMTail (pre : List Char) : List Char → Option (List Char × List Char)
  | ':' :: d1 :: d2 :: r =>
    if isDigitCh d1 && isDigitCh d2 then some (pre ++ [':', d1, d2], r) else none
  | _ => none

def matchHMAt : List Char → Option (List Char × List Char)
  | c1 :: c2 :: rest =>
    if isDigitCh c1 then
      if isDigitCh c2 then
        match matchHMTail [c1, c2] rest with
        | some res => some res
        | none => matchHMTail [c1] (c2 :: rest)
      else matchHMTail [c1] (c2 :: rest)
    else none
  | _ => none

/-- \s*[-..]\s* between the two sides (hyphen or en dash). -/
def matchDashBetween (r : List Char) : Option (List Char) :=
  match r.dropWhile isPySpace with
  | d :: r3 => if d = '-' || d = '–' then some (r3.dropWhile isPySpace) else none
  | [] => none

def matchPattern1At (s : List Char) : Option (List Char × List Char) :=
  match matchTime12At s with
  | some (g1, r) =>
    match matchDashBetween r with
    | some r4 =>
      match matchTime12At r4 with
      | some (g2, _) => some (g1, g2)
      | none => none
    | none => none
  | none => none

def searchPattern1 : List Char → Option (List Char × List Char)
  | [] => none
  | c :: rest =>
    match matchPattern1At (c :: rest) with
    | some g => some g
    | none => searchPattern1 rest

def matchPattern2At (s : List Char) : Option (List Char × List Char) :=
  match matchHMAt s with
  | some (g1, r) =>
    match matchDashBetween r with
    | some r4 =>
      match matchHMAt r4 with
      | some (g2, _) => some (g1, g2)
      | none => none
    | none => none
  | none => none

def searchPattern2 : List Char → Option (List Char × List Char)
  | [] => none
  | c :: rest =>
    match matchPattern2At (c :: rest) with
    | some g => some g
    | none => searchPattern2 rest

/-- Second alternative of the shared time pattern: \d{1,2}\s*(am|pm). -/
def matchBareTimeTail (pre : List Char) (r : List Char) : Option (List Char × List Char) :=
  let ws := r.takeWhile isPySpace
  let r2 := r.dropWhile isPySpace
  match r2 with
  | a :: m :: rest =>
    if (a = 'a' || a = 'A' || a = 'p' || a = 'P') && (m = 'm' || m = 'M') then
      some (pre ++ ws ++ [a, m], rest)
    else none
  | _ => none

def matchBareTimeAt : List Char → Option (List Char × List Char)
  | c1 :: c2 :: rest =>
    if isDigitCh c1 then
      if isDigitCh c2 then
        match matchBareTimeTail [c1, c2] rest with
        | some res => some res
        | none => matchBareTimeTail [c1] (c2 :: rest)
      else matchBareTimeTail [c1] (c2 :: rest)
    else none
  | _ => none

def matchTimeAnyAt (s : List Char) : Option (List Char × List Char) :=
  match matchTime12At s with
  | some res => some res
  | none => matchBareTimeAt s

def searchTimeAny : List Char → Option (List Char)
  | [] => none
  | c :: rest =>
    match matchTimeAnyAt (c :: rest) with
    | some (g, _) => some g
    | none => searchTimeAny rest

/-- Pattern 5 block: any time-like token anywhere in the string. -/
def complexPattern5 (t : List Char) : Option (List Char) × Option (List Char) :=
  match searchTimeAny t with
  | some g => (some (pyStrip g), none)
  | none => (none, none)

/-- Pattern 4 block: multiple times separated by & or /. -/
def complexPattern4 (t : List Char) : Option (List Char) × Option (List Char) :=
  if containsSub "&".toList t || containsSub "/".toList t then
    match searchTimeAny t with
    | some g => (some (pyStrip g), none)
    | none => complexPattern5 t
  else complexPattern5 t

/-- timestamp_utils.extract_time_range_from_complex_string. -/
def extract_time_range_from_complex_string (s : List Char) :
    Option (List Char) × Option (List Char) :=
  if s = [] then (none, none)
  else
    let t := pyStrip s
    match searchPattern1 t with
    | some (g1, g2) => (some (pyStrip g1), some (pyStrip g2))
    | none =>
    match searchPattern2 t with
    | some (g1, g2) => (some (pyStrip g1), some (pyStrip g2))
    | none =>
      if containsSub "onwards".toList (pyLower t) || containsSub "from".toList (pyLower t) then
        match searchTimeAny t with
        | some g => (some (pyStrip g), none)
        | none => complexPattern4 t
      else complexPattern4 t

-- ### convert_datetime_to_timestamps (timestamp_utils.py lines 195-346)
-- The event fields the converter reads; `none` models an absent key
-- (event.get returns the default).  The result models the added
-- startTimestamp/endTimestamp fields; a `.error` value models an uncaught
-- Python exception (the ValueError raised by datetime.replace on an
-- out-of-range hour or minute).  The executing host's local timezone is
-- the explicit parameter `tz` (its UTC offset in seconds): timestamps of
-- timezone-aware datetimes never depend on it, timestamps obtained from
-- naive datetimes subtract it.

structure TsEvent where
  date : Option (List Char)
  time : Option (List Char)
  description : Option (List Char)
deriving DecidableEq, Repr

structure TsPair where
  startTimestamp : Option Int
  endTimestamp : Option Int
deriving DecidableEq, Repr

def recurTerms : List (List Char) :=
  ["weekdays".toList, "weekends".toList, "sunday to thursday".toList,
   "friday & saturday".toList]

def hasRecurTerm (desc : List Char) : Bool :=
  recurTerms.any (fun t => containsSub t (pyLower desc))

/-- Epoch seconds of a Qatar-timezone-aware datetime (fixed UTC+3). -/
def awareQatarTs (d : PyDate) (h m : Nat) : Int :=
  epochDays d * 86400 + (h : Int) * 3600 + (m : Int) * 60 - 10800

/-- Epoch seconds of a naive datetime interpreted in the host-local zone
with UTC offset `tz` seconds (datetime.timestamp() on a naive value). -/
def naiveLocalTs (tz : Int) (d : PyDate) (h m : Nat) : Int :=
  epochDays d * 86400 + (h : Int) * 3600 + (m : Int) * 60 - tz

/-- timestamp_utils.convert_to_qatar_timestamp; datetime.replace raises
ValueError when the hour or minute is out of range. -/
def convert_to_qatar_timestamp (d : PyDate) (h m : Nat) : Except Unit Int :=
  if h ≤ 23 ∧ m ≤ 59 then .ok (awareQatarTs d h m) else .error ()

/-- int(date.replace(hour=h, minute=m, ...).timestamp()) on a naive
datetime: host-local interpretation, same replace validation. -/
def naiveReplaceTs (tz : Int) (d : PyDate) (h m : Nat) : Except Unit Int :=
  if h ≤ 23 ∧ m ≤ 59 then .ok (naiveLocalTs tz d h m) else .error ()

def minutesHour (n : Int) : Nat := n.toNat / 60

def minutesMin (n : Int) : Nat := n.toNat % 60

/-- Branch taken when extract_time_range_from_complex_string found a start
time (timestamp_utils.py lines 228-270). -/
def enhancedBranch (tz : Int) (ev : TsEvent) (sd ed : PyDate)
    (sts : List Char) (etOpt : Option (List Char)) : Except Unit TsPair := do
  let sm := parse_time_to_minutes sts
  let em := match etOpt with
    | some e => parse_time_to_minutes e
    | none => 0
  let st1 ← if sm > 0 then
      (some <$> convert_to_qatar_timestamp sd (minutesHour sm) (minutesMin sm))
    else pure none
  let et1 ← if etOpt.isSome ∧ em > 0 then
      (some <$> convert_to_qatar_timestamp ed (minutesHour em) (minutesMin em))
    else pure none
  match ev.description with
  | some desc =>
    if hasRecurTerm desc then do
      let st2 ← if sm > 0 then
          (some <$> naiveReplaceTs tz sd (minutesHour sm) (minutesMin sm))
        else pure st1
      let et2 ← if em > 0 then
          (some <$> convert_to_qatar_timestamp ed (minutesHour em) (minutesMin em))
        else pure et1
      return ⟨st2, et2⟩
    else return ⟨st1, et1⟩
  | none => return ⟨st1, et1⟩

/-- Fallback branch for time strings of shape start - end
(timestamp_utils.py lines 276-322). -/
def fallbackTwoPart (tz : Int) (ev : TsEvent) (sd ed : PyDate)
    (a b : List Char) : Except Unit TsPair := do
  let sm := parse_time_to_minutes (pyStrip a)
  let em := parse_time_to_minutes (pyStrip b)
  let st1 ← if sm > 0 then
      (some <$> convert_to_qatar_timestamp sd (minutesHour sm) (minutesMin sm))
    else pure none
  let et1 ← if em > 0 then
      (some <$> naiveReplaceTs tz ed (minutesHour em) (minutesMin em))
    else pure none
  match ev.description with
  | some desc =>
    if hasRecurTerm desc then do
      let st2 ← if sm > 0 then
          (some <$> naiveReplaceTs tz sd (minutesHour sm) (minutesMin sm))
        else pure st1
      let et2 ← if em > 0 then
          (some <$> naiveReplaceTs tz ed (minutesHour em) (minutesMin em))
        else pure et1
      return ⟨st2, et2⟩
    else return ⟨st1, et1⟩
  | none => return ⟨st1, et1⟩

/-- Fallback branch for a single time (timestamp_utils.py lines 324-338). -/
def fallbackOnePart (sd : PyDate) (a : List Char) : Except Unit TsPair := do
  let sm := parse_time_to_minutes (pyStrip a)
  let st1 ← if sm > 0 then
      (some <$> convert_to_qatar_timestamp sd (minutesHour sm) (minutesMin sm))
    else pure none
  return ⟨st1, none⟩

def convertWithDates (tz : Int) (ev : TsEvent) (timeStr : List Char)
    (sd ed : PyDate) : Except Unit TsPair :=
  match extract_time_range_from_complex_string timeStr with
  | (some sts, etOpt) => enhancedBranch tz ev sd ed sts etOpt
  | (none, _) =>
    match pySplit " - ".toList timeStr with
    | [a, b] => fallbackTwoPart tz ev sd ed a b
    | [a] => fallbackOnePart sd a
    | _ => .ok ⟨none, none⟩

/-- timestamp_utils.convert_datetime_to_timestamps, restricted to the
startTimestamp/endTimestamp fields it adds to the record. -/
def convert_datetime_to_timestamps (tz : Int) (ev : TsEvent) : Except Unit TsPair :=
  let dateStr := ev.date.getD []
  let timeStr := ev.time.getD []
  if (!dateStr.isEmpty && timePlaceholders.contains (pyUpper dateStr)) ||
     (!timeStr.isEmpty && timePlaceholders.contains (pyUpper timeStr)) then
    .ok ⟨none, none⟩
  else if !dateStr.isEmpty && !timeStr.isEmpty then
    match extract_date_range dateStr with
    | (some sd, some ed) => convertWithDates tz ev timeStr sd ed
    | _ => .ok ⟨none, none⟩
  else .ok ⟨none, none⟩

/-- timestamp_utils.convert_datetime_to_timestamps_clean computes the two
timestamp fields by code identical line-for-line to
convert_datetime_to_timestamps (its additional work only removes the
date/time keys and trims the description afterwards), so its timestamp
projection is the same function. -/
def convert_datetime_to_timestamps_clean (tz : Int) (ev : TsEvent) :
    Except Unit TsPair :=
  convert_datetime_to_timestamps tz ev

deriving instance DecidableEq for Except

-- Concrete events used to settle the timestamp claims.

def evRange18 : TsEvent :=
  ⟨some "2025-03-10".toList, some "18 - 20".toList, none⟩

def evWeekdays : TsEvent :=
  ⟨some "2025-03-10".toList, some "6:00 PM - 8:00 PM".toList,
   some "open on weekdays".toList⟩

def evHour25 : TsEvent :=
  ⟨some "2025-03-10".toList, some "25:00".toList, none⟩

def evMidnightRange : TsEvent :=
  ⟨some "2025-03-10".toList, some "12:00 AM - 5:00 PM".toList, none⟩

/-- C1: the claim fails on the code.  convert_datetime_to_timestamps is
NOT independent of the host UTC offset: for the event with date
2025-03-10 and time 18 - 20 the end timestamp of the start - end
fallback path comes from a naive datetime.timestamp() call, and for the
event whose description contains the recurring keyword weekdays the
start timestamp is recomputed from a naive datetime; in both cases two
hosts with local offsets UTC+0 and UTC+3 produce different results (the
same holds for the _clean variant), while the plain 6:00 PM
single-time path is offset-independent as the spec demands. -/
theorem C1_host_offset_dependence :
    convert_datetime_to_timestamps 0 evRange18 ≠
      convert_datetime_to_timestamps 10800 evRange18 ∧
    convert_datetime_to_timestamps 0 evWeekdays ≠
      convert_datetime_to_timestamps 10800 evWeekdays ∧
    convert_datetime_to_timestamps_clean 0 evRange18 ≠
      convert_datetime_to_timestamps_clean 10800 evRange18 ∧
    convert_datetime_to_timestamps 0
        ⟨some "2025-03-10".toList, some "6:00 PM".toList, none⟩ =
      convert_datetime_to_timestamps 10800
        ⟨some "2025-03-10".toList, some "6:00 PM".toList, none⟩ := by
  refine ⟨by decide, by decide, by decide, by decide⟩

/-- C2: the claim fails on the code.  convert_datetime_to_timestamps is
not total: for a valid date with time 25:00 the colon-split fallback of
parse_time_to_minutes yields 1500 minutes and datetime.replace(hour=25)
raises an uncaught ValueError (modelled as .error), for every host
offset; the _clean variant raises identically. -/
theorem C2_hour25_raises :
    ∀ tz : Int, convert_datetime_to_timestamps tz evHour25 = .error () ∧
      convert_datetime_to_timestamps_clean tz evHour25 = .error () := by
  intro tz
  exact ⟨rfl, rfl⟩

/-- C8: there is an event (date 2025-03-10, time 12:00 AM - 5:00 PM)
for which convert_datetime_to_timestamps returns a non-null endTimestamp
(2025-03-10 17:00 at UTC+3) together with a null startTimestamp: the
12:00 AM start parses to minute-of-day 0, which the start guard treats
as not found, while the end timestamp is set independently because the
end time parses to a non-zero minute-of-day. -/
theorem C8_end_without_start :
    ∀ tz : Int, convert_datetime_to_timestamps tz evMidnightRange =
      .ok ⟨none, some 1741615200⟩ := by
  intro tz
  rfl

-- ### Lemmas about the string primitives

theorem headMatch_append {sep : List Char} :
    ∀ {s : List Char}, headMatch sep s = true → s = sep ++ s.drop sep.length := by
  induction sep with
  | nil => intro s _; simp
  | cons a as ih =>
    intro s h
    cases s with
    | nil => simp [headMatch] at h
    | cons b bs =>
      simp only [headMatch, Bool.and_eq_true, decide_eq_true_eq] at h
      obtain ⟨h1, h2⟩ := h
      subst h1
      simpa using ih h2

theorem splitFirst_eq_append {sep : List Char} :
    ∀ {s a b : List Char}, splitFirst sep s = some (a, b) → s = a ++ sep ++ b := by
  intro s
  induction s with
  | nil => intro a b h; simp [splitFirst] at h
  | cons c rest ih =>
    intro a b h
    unfold splitFirst at h
    by_cases hm : headMatch sep (c :: rest) = true
    · rw [if_pos hm] at h
      simp only [Option.some.injEq, Prod.mk.injEq] at h
      obtain ⟨ha, hb⟩ := h
      subst ha
      subst hb
      simpa using headMatch_append hm
    · rw [if_neg hm] at h
      cases hsf : splitFirst sep rest with
      | none => rw [hsf] at h; simp at h
      | some ab =>
        rw [hsf] at h
        simp only [Option.some.injEq] at h
        obtain ⟨x, y⟩ := ab
        have hrest := ih hsf
        cases h
        simpa using hrest

theorem splitFirst_some_shorter {sep : List Char} (hsep : sep ≠ [])
    {s a b : List Char} (h : splitFirst sep s = some (a, b)) :
    b.length < s.length := by
  have hs := splitFirst_eq_append h
  subst hs
  have : 0 < sep.length := List.length_pos.mpr hsep
  simp [List.length_append]
  omega

theorem pySplitAux_succ_none {sep : List Char} {s : List Char} (n : Nat)
    (h : splitFirst sep s = none) : pySplitAux sep (n + 1) s = [s] := by
  unfold pySplitAux
  rw [h]

theorem pySplitAux_succ_some {sep : List Char} {s a b : List Char} (n : Nat)
    (h : splitFirst sep s = some (a, b)) :
    pySplitAux sep (n + 1) s = a :: pySplitAux sep n b := by
  simp only [pySplitAux, h]

theorem pySplitAux_fuel_irrel {sep : List Char} (hsep : sep ≠ []) :
    ∀ n m s, s.length < n → s.length < m →
      pySplitAux sep n s = pySplitAux sep m s := by
  intro n
  induction n with
  | zero => intro m s h; omega
  | succ n ih =>
    intro m s hn hm
    cases m with
    | zero => omega
    | succ m =>
      cases hsf : splitFirst sep s with
      | none => rw [pySplitAux_succ_none n hsf, pySplitAux_succ_none m hsf]
      | some ab =>
        obtain ⟨a, b⟩ := ab
        have hb := splitFirst_some_shorter hsep hsf
        rw [pySplitAux_succ_some n hsf, pySplitAux_succ_some m hsf,
          ih m b (by omega) (by omega)]

theorem pySplit_of_none {sep s : List Char} (h : splitFirst sep s = none) :
    pySplit sep s = [s] := by
  unfold pySplit
  exact pySplitAux_succ_none s.length h

theorem pySplit_of_some {sep : List Char} (hsep : sep ≠ []) {s a b : List Char}
    (h : splitFirst sep s = some (a, b)) : pySplit sep s = a :: pySplit sep b := by
  unfold pySplit
  rw [pySplitAux_succ_some s.length h]
  have hb := splitFirst_some_shorter hsep h
  rw [pySplitAux_fuel_irrel hsep s.length (b.length + 1) b hb (by omega)]

theorem pySplitAux_ne_nil {sep : List Char} : ∀ n s, pySplitAux sep n s ≠ [] := by
  intro n s
  cases n with
  | zero => simp [pySplitAux]
  | succ n =>
    cases hsf : splitFirst sep s with
    | none => rw [pySplitAux_succ_none n hsf]; simp
    | some ab =>
      obtain ⟨a, b⟩ := ab
      rw [pySplitAux_succ_some n hsf]
      simp

theorem pySplit_pair {sep : List Char} (hsep : sep ≠ []) {s a b : List Char}
    (h : pySplit sep s = [a, b]) :
    splitFirst sep s = some (a, b) ∧ splitFirst sep b = none := by
  cases hsf : splitFirst sep s with
  | none => rw [pySplit_of_none hsf] at h; simp at h
  | some ab =>
    obtain ⟨x, y⟩ := ab
    rw [pySplit_of_some hsep hsf] at h
    simp only [List.cons.injEq] at h
    obtain ⟨hx, hy⟩ := h
    subst hx
    cases hsf2 : splitFirst sep y with
    | none =>
      rw [pySplit_of_none hsf2] at hy
      simp only [List.cons.injEq] at hy
      obtain ⟨hyb, -⟩ := hy
      subst hyb
      exact ⟨rfl, hsf2⟩
    | some ab2 =>
      obtain ⟨x2, y2⟩ := ab2
      rw [pySplit_of_some hsep hsf2] at hy
      simp only [List.cons.injEq] at hy
      exact absurd hy.2 (pySplitAux_ne_nil _ _)

theorem containsSub_true_of_splitFirst {sep s a b : List Char}
    (h : splitFirst sep s = some (a, b)) : containsSub sep s = true := by
  unfold containsSub
  rw [h]
  rfl

/-- Every character of an occurring separator occurs in the string. -/
theorem mem_of_containsSub {sep s : List Char} (h : containsSub sep s = true)
    {c : Char} (hc : c ∈ sep) : c ∈ s := by
  unfold containsSub at h
  cases hsf : splitFirst sep s with
  | none => rw [hsf] at h; simp at h
  | some ab =>
    obtain ⟨a, b⟩ := ab
    have := splitFirst_eq_append hsf
    subst this
    simp [hc]

-- ### Characters consumed by the date-format parsers

theorem firstSome_eq_some {l : List α} {k : α → Option β} {b : β}
    (h : firstSome l k = some b) : ∃ a ∈ l, k a = some b := by
  induction l with
  | nil => simp [firstSome] at h
  | cons c cs ih =>
    unfold firstSome at h
    cases hk : k c with
    | some b2 =>
      rw [hk] at h
      exact ⟨c, by simp, by rw [hk]; exact h⟩
    | none =>
      rw [hk] at h
      obtain ⟨a, ha, hka⟩ := ih h
      exact ⟨a, by simp [ha], hka⟩

theorem mem_ite_singleton {b : Bool} {x y : α}
    (h : y ∈ (if b = true then [x] else [])) : b = true ∧ y = x := by
  split at h
  · simp only [List.mem_singleton] at h
    exact ⟨by assumption, h⟩
  · simp at h

theorem isDigitCh_of_between {lo : Char} {c : Char} (hlo : '0' ≤ lo)
    (h : (lo ≤ c && c ≤ '9') = true) : isDigitCh c = true := by
  simp only [Bool.and_eq_true, decide_eq_true_eq] at h
  simp only [isDigitCh, Bool.and_eq_true, decide_eq_true_eq]
  exact ⟨le_trans hlo h.1, h.2⟩

theorem monthFieldMatches_split {s r : List Char} {v : Nat}
    (h : (v, r) ∈ monthFieldMatches s) :
    ∃ pre, s = pre ++ r ∧ pre.all isDigitCh = true := by
  match s with
  | [] => simp [monthFieldMatches] at h
  | [c] =>
    rw [monthFieldMatches] at h
    obtain ⟨hc, heq⟩ := mem_ite_singleton h
    obtain ⟨-, hr⟩ := Prod.ext_iff.mp heq
    subst hr
    exact ⟨[c], by simp, by
      simp only [List.all_cons, List.all_nil, Bool.and_true]
      exact isDigitCh_of_between (by decide) hc⟩
  | c1 :: c2 :: rest =>
    rw [monthFieldMatches] at h
    rcases List.mem_append.mp h with h1 | h2
    · rcases List.mem_append.mp h1 with h2 | h2
      · obtain ⟨hc, heq⟩ := mem_ite_singleton h2
        obtain ⟨-, hr⟩ := Prod.ext_iff.mp heq
        subst hr
        simp only [Bool.and_eq_true, decide_eq_true_eq] at hc
        refine ⟨[c1, c2], by simp, ?_⟩
        simp only [List.all_cons, List.all_nil, Bool.and_true, Bool.and_eq_true]
        constructor
        · rw [hc.1]; decide
        · simp only [isDigitCh, Bool.and_eq_true, decide_eq_true_eq]
          exact ⟨hc.2.1, le_trans hc.2.2 (by decide)⟩
      · obtain ⟨hc, heq⟩ := mem_ite_singleton h2
        obtain ⟨-, hr⟩ := Prod.ext_iff.mp heq
        subst hr
        simp only [Bool.and_eq_true, decide_eq_true_eq] at hc
        refine ⟨[c1, c2], by simp, ?_⟩
        simp only [List.all_cons, List.all_nil, Bool.and_true, Bool.and_eq_true]
        constructor
        · rw [hc.1]; decide
        · simp only [isDigitCh, Bool.and_eq_true, decide_eq_true_eq]
          exact ⟨le_trans (by decide) hc.2.1, hc.2.2⟩
    · obtain ⟨hc, heq⟩ := mem_ite_singleton h2
      obtain ⟨-, hr⟩ := Prod.ext_iff.mp heq
      subst hr
      refine ⟨[c1], by simp, ?_⟩
      simp only [List.all_cons, List.all_nil, Bool.and_true]
      exact isDigitCh_of_between (by decide) hc

theorem dayFieldMatches_split {s r : List Char} {v : Nat}
    (h : (v, r) ∈ dayFieldMatches s) :
    ∃ pre, s = pre ++ r ∧ pre.all isDigitCh = true := by
  match s with
  | [] => simp [dayFieldMatches] at h
  | [c] =>
    rw [dayFieldMatches] at h
    obtain ⟨hc, heq⟩ := mem_ite_singleton h
    obtain ⟨-, hr⟩ := Prod.ext_iff.mp heq
    subst hr
    exact ⟨[c], by simp, by
      simp only [List.all_cons, List.all_nil, Bool.and_true]
      exact isDigitCh_of_between (by decide) hc⟩
  | c1 :: c2 :: rest =>
    rw [dayFieldMatches] at h
    rcases List.mem_append.mp h with h1 | h2
    · rcases List.mem_append.mp h1 with h1 | h2
      · rcases List.mem_append.mp h1 with h2 | h2
        · obtain ⟨hc, heq⟩ := mem_ite_singleton h2
          obtain ⟨-, hr⟩ := Prod.ext_iff.mp heq
          subst hr
          simp only [Bool.and_eq_true, Bool.or_eq_true, decide_eq_true_eq] at hc
          refine ⟨[c1, c2], by simp, ?_⟩
          simp only [List.all_cons, List.all_nil, Bool.and_true, Bool.and_eq_true]
          constructor
          · rw [hc.1]; decide
          · rcases hc.2 with h0 | h0 <;> rw [h0] <;> decide
        · obtain ⟨hc, heq⟩ := mem_ite_singleton h2
          obtain ⟨-, hr⟩ := Prod.ext_iff.mp heq
          subst hr
          simp only [Bool.and_eq_true, Bool.or_eq_true, decide_eq_true_eq] at hc
          refine ⟨[c1, c2], by simp, ?_⟩
          simp only [List.all_cons, List.all_nil, Bool.and_true, Bool.and_eq_true]
          constructor
          · rcases hc.1 with h0 | h0 <;> rw [h0] <;> decide
          · exact hc.2
      · obtain ⟨hc, heq⟩ := mem_ite_singleton h2
        obtain ⟨-, hr⟩ := Prod.ext_iff.mp heq
        subst hr
        simp only [Bool.and_eq_true, decide_eq_true_eq] at hc
        refine ⟨[c1, c2], by simp, ?_⟩
        simp only [List.all_cons, List.all_nil, Bool.and_true, Bool.and_eq_true]
        constructor
        · rw [hc.1]; decide
        · simp only [isDigitCh, Bool.and_eq_true, decide_eq_true_eq]
          exact ⟨le_trans (by decide) hc.2.1, hc.2.2⟩
    · obtain ⟨hc, heq⟩ := mem_ite_singleton h2
      obtain ⟨-, hr⟩ := Prod.ext_iff.mp heq
      subst hr
      refine ⟨[c1], by simp, ?_⟩
      simp only [List.all_cons, List.all_nil, Bool.and_true]
      exact isDigitCh_of_between (by decide) hc

/-- Characters that can appear in a string accepted by one of the five
date formats. -/
def dateChar (c : Char) : Bool :=
  isDigitCh c || c = '-' || c = '/'

theorem all_dateChar_of_digits {l : List Char} (h : l.all isDigitCh = true) :
    l.all dateChar = true := by
  simp only [List.all_eq_true] at h ⊢
  intro c hc
  simp [dateChar, h c hc]

theorem parseFmtYmd_chars {s : List Char} {d : PyDate}
    (h : parseFmtYmd s = some d) : s.all dateChar = true := by
  unfold parseFmtYmd at h
  split at h
  · rename_i y1 y2 y3 y4 rest
    split at h
    · rename_i hdig
      obtain ⟨mc, hmem, hk⟩ := firstSome_eq_some h
      obtain ⟨preM, hrest, hpreM⟩ := monthFieldMatches_split hmem
      split at hk
      · rename_i r2 hr2
        obtain ⟨dc, hmem2, hk2⟩ := firstSome_eq_some hk
        obtain ⟨preD, hr2eq, hpreD⟩ := dayFieldMatches_split hmem2
        split at hk2
        · rename_i hnil
          simp only [Bool.and_eq_true] at hdig
          subst hrest
          rw [hr2] at *
          subst hr2eq
          rw [hnil] at *
          have hy1 := hdig.1.1.1
          have hy2 := hdig.1.1.2
          have hy3 := hdig.1.2
          have hy4 := hdig.2
          have hm := all_dateChar_of_digits hpreM
          have hdd := all_dateChar_of_digits hpreD
          simp [List.all_cons, List.all_append, List.all_nil, List.append_nil,
            hm, hdd, dateChar, hy1, hy2, hy3, hy4]
        · simp at hk2
      · simp at hk
    · simp at h
  · simp at h

theorem yearTail_eq_some {sepCh : Char} {mk : Nat → Option PyDate}
    {l : List Char} {d : PyDate} (h : yearTail sepCh mk l = some d) :
    ∃ y1 y2 y3 y4, l = [sepCh, y1, y2, y3, y4] ∧
      (isDigitCh y1 && isDigitCh y2 && isDigitCh y3 && isDigitCh y4) = true ∧
      mk (natOfDigits [y1, y2, y3, y4]) = some d := by
  match l with
  | [] => simp [yearTail] at h
  | [c2] => simp [yearTail] at h
  | [c2, z1] => simp [yearTail] at h
  | [c2, z1, z2] => simp [yearTail] at h
  | [c2, z1, z2, z3] => simp [yearTail] at h
  | c2 :: z1 :: z2 :: z3 :: z4 :: z5 :: tail => simp [yearTail] at h
  | [c2, z1, z2, z3, z4] =>
    rw [yearTail] at h
    by_cases hb : (decide (c2 = sepCh) && isDigitCh z1 && isDigitCh z2 &&
        isDigitCh z3 && isDigitCh z4) = true
    · refine ⟨z1, z2, z3, z4, ?_, ?_, ?_⟩
      · have hc2 : c2 = sepCh := by
          have := hb
          simp only [Bool.and_eq_true, decide_eq_true_eq] at this
          exact this.1.1.1.1
        rw [hc2]
      · simp only [Bool.and_eq_true, decide_eq_true_eq] at hb ⊢
        exact ⟨⟨⟨hb.1.1.1.2, hb.1.1.2⟩, hb.1.2⟩, hb.2⟩
      · rw [if_pos hb] at h
        exact h
    · rw [if_neg hb] at h
      simp at h

theorem parseFmtDmy_chars {sepCh : Char} (hsep : dateChar sepCh = true)
    {s : List Char} {d : PyDate}
    (h : parseFmtDmy sepCh s = some d) : s.all dateChar = true := by
  unfold parseFmtDmy at h
  obtain ⟨dc, hmem, hk⟩ := firstSome_eq_some h
  obtain ⟨preD, hseq, hpreD⟩ := dayFieldMatches_split hmem
  obtain ⟨dv, dr⟩ := dc
  cases dr with
  | nil => simp at hk
  | cons c r2 =>
    simp only at hk hseq
    by_cases hcs : c = sepCh
    · rw [if_pos hcs] at hk
      obtain ⟨mc, hmem2, hk2⟩ := firstSome_eq_some hk
      obtain ⟨preM, hr2eq, hpreM⟩ := monthFieldMatches_split hmem2
      obtain ⟨y1, y2, y3, y4, hmr, hdig, -⟩ := yearTail_eq_some hk2
      subst hseq
      rw [hr2eq, hmr]
      simp only [Bool.and_eq_true] at hdig
      have hm := all_dateChar_of_digits hpreM
      have hdd := all_dateChar_of_digits hpreD
      have hcc : dateChar c = true := by rw [hcs]; exact hsep
      simp [List.all_cons, List.all_append, List.all_nil, List.append_nil,
        hm, hdd, hcc, hsep, dateChar, hdig.1.1.1, hdig.1.1.2, hdig.1.2, hdig.2]
      constructor
      · simpa [dateChar] using hcc
      · simpa [dateChar] using hsep
    · rw [if_neg hcs] at hk
      simp at hk

theorem parseFmtMdy_chars {sepCh : Char} (hsep : dateChar sepCh = true)
    {s : List Char} {d : PyDate}
    (h : parseFmtMdy sepCh s = some d) : s.all dateChar = true := by
  unfold parseFmtMdy at h
  obtain ⟨mc, hmem, hk⟩ := firstSome_eq_some h
  obtain ⟨preM, hseq, hpreM⟩ := monthFieldMatches_split hmem
  obtain ⟨mv, mr⟩ := mc
  cases mr with
  | nil => simp at hk
  | cons c r2 =>
    simp only at hk hseq
    by_cases hcs : c = sepCh
    · rw [if_pos hcs] at hk
      obtain ⟨dc, hmem2, hk2⟩ := firstSome_eq_some hk
      obtain ⟨preD, hr2eq, hpreD⟩ := dayFieldMatches_split hmem2
      obtain ⟨y1, y2, y3, y4, hmr, hdig, -⟩ := yearTail_eq_some hk2
      subst hseq
      rw [hr2eq, hmr]
      simp only [Bool.and_eq_true] at hdig
      have hm := all_dateChar_of_digits hpreM
      have hdd := all_dateChar_of_digits hpreD
      have hcc : dateChar c = true := by rw [hcs]; exact hsep
      simp [List.all_cons, List.all_append, List.all_nil, List.append_nil,
        hm, hdd, hcc, hsep, dateChar, hdig.1.1.1, hdig.1.1.2, hdig.1.2, hdig.2]
      constructor
      · simpa [dateChar] using hcc
      · simpa [dateChar] using hsep
    · rw [if_neg hcs] at hk
      simp at hk

/-- Any string accepted by one of the five supported date formats
consists only of digits, hyphens and slashes. -/
theorem dateFormatsParse_chars {s : List Char} {d : PyDate}
    (h : dateFormatsParse s = some d) : s.all dateChar = true := by
  unfold dateFormatsParse at h
  cases h1 : parseFmtYmd s with
  | some d1 => exact parseFmtYmd_chars h1
  | none =>
    rw [h1] at h
    cases h2 : parseFmtDmy '/' s with
    | some d1 => exact parseFmtDmy_chars (by decide) h2
    | none =>
      rw [h2] at h
      cases h3 : parseFmtMdy '/' s with
      | some d1 => exact parseFmtMdy_chars (by decide) h3
      | none =>
        rw [h3] at h
        cases h4 : parseFmtDmy '-' s with
        | some d1 => exact parseFmtDmy_chars (by decide) h4
        | none =>
          rw [h4] at h
          exact parseFmtMdy_chars (by decide) h

theorem not_containsSub_of_parse {s : List Char} {d : PyDate}
    (h : dateFormatsParse s = some d) (sep : List Char) (c : Char)
    (hc : c ∈ sep) (hnc : dateChar c = false) : containsSub sep s = false := by
  cases hx : containsSub sep s
  · rfl
  · exfalso
    have hmem : c ∈ s := mem_of_containsSub hx hc
    have hall := dateFormatsParse_chars h
    rw [List.all_eq_true] at hall
    have := hall c hmem
    rw [hnc] at this
    simp at this

theorem extract_single_of_parse {s : List Char} {d : PyDate}
    (h : dateFormatsParse (pyStrip s) = some d) :
    extract_date_range s = (some d, some d) := by
  have hs : ¬ s = [] := by
    intro he
    subst he
    have : dateFormatsParse (pyStrip ([] : List Char)) = none := rfl
    rw [this] at h
    cases h
  have h1 : containsSub " to ".toList (pyStrip s) = false :=
    not_containsSub_of_parse h " to ".toList ' ' (by decide) (by decide)
  have h2 : containsSub " - ".toList (pyStrip s) = false :=
    not_containsSub_of_parse h " - ".toList ' ' (by decide) (by decide)
  unfold extract_date_range
  rw [if_neg hs]
  have hcond : ¬ containsSub " to ".toList (pyStrip s) = true ∧
      ¬ containsSub " - ".toList (pyStrip s) = true :=
    ⟨by rw [h1]; simp, by rw [h2]; simp⟩
  rw [if_pos hcond, h]

theorem extract_range_to {s a b : List Char} {d1 d2 : PyDate}
    (hsplit : pySplit " to ".toList (pyStrip s) = [a, b])
    (h1 : dateFormatsParse (pyStrip a) = some d1)
    (h2 : dateFormatsParse (pyStrip b) = some d2) :
    extract_date_range s = (some d1, some d2) := by
  obtain ⟨hsf, -⟩ := pySplit_pair (by decide) hsplit
  have hcont : containsSub " to ".toList (pyStrip s) = true :=
    containsSub_true_of_splitFirst hsf
  have hs : ¬ s = [] := by
    intro he
    subst he
    have : pyStrip ([] : List Char) = [] := rfl
    rw [this] at hsplit
    rw [pySplit_of_none (show splitFirst " to ".toList [] = none from rfl)] at hsplit
    simp at hsplit
  unfold extract_date_range
  rw [if_neg hs, if_neg (fun hcond => hcond.1 hcont)]
  unfold rangeSepLoop
  rw [if_pos hcont, hsplit]
  simp [h1, h2]

theorem extract_range_dash {s a b : List Char} {d1 d2 : PyDate}
    (hto : containsSub " to ".toList (pyStrip s) = false)
    (hsplit : pySplit " - ".toList (pyStrip s) = [a, b])
    (h1 : dateFormatsParse (pyStrip a) = some d1)
    (h2 : dateFormatsParse (pyStrip b) = some d2) :
    extract_date_range s = (some d1, some d2) := by
  obtain ⟨hsf, -⟩ := pySplit_pair (by decide) hsplit
  have hcont : containsSub " - ".toList (pyStrip s) = true :=
    containsSub_true_of_splitFirst hsf
  have hs : ¬ s = [] := by
    intro he
    subst he
    have : pyStrip ([] : List Char) = [] := rfl
    rw [this] at hsplit
    rw [pySplit_of_none (show splitFirst " - ".toList [] = none from rfl)] at hsplit
    simp at hsplit
  unfold extract_date_range
  rw [if_neg hs, if_neg (fun hcond => hcond.2 hcont)]
  unfold rangeSepLoop
  rw [if_neg (show ¬ containsSub " to ".toList (pyStrip s) = true by rw [hto]; simp)]
  unfold rangeSepLoop
  rw [if_pos hcont, hsplit]
  simp [h1, h2]

theorem extract_range_dead_seps {s : List Char}
    (hto : containsSub " to ".toList (pyStrip s) = false)
    (hdash : containsSub " - ".toList (pyStrip s) = false)
    (hword : containsSub " until ".toList (pyStrip s) = true ∨
      containsSub " through ".toList (pyStrip s) = true) :
    extract_date_range s = (none, none) := by
  have hu : 'u' ∈ pyStrip s := by
    rcases hword with hw | hw
    · exact mem_of_containsSub hw (by decide)
    · exact mem_of_containsSub hw (by decide)
  have hs : ¬ s = [] := by
    intro he
    subst he
    have : pyStrip ([] : List Char) = [] := rfl
    rw [this] at hu
    cases hu
  have hparse : dateFormatsParse (pyStrip s) = none := by
    cases hp : dateFormatsParse (pyStrip s) with
    | none => rfl
    | some d =>
      exfalso
      have hall := dateFormatsParse_chars hp
      rw [List.all_eq_true] at hall
      have := hall 'u' hu
      simp [dateChar, isDigitCh] at this
  unfold extract_date_range
  rw [if_neg hs]
  have hcond : ¬ containsSub " to ".toList (pyStrip s) = true ∧
      ¬ containsSub " - ".toList (pyStrip s) = true :=
    ⟨by rw [hto]; simp, by rw [hdash]; simp⟩
  rw [if_pos hcond, hparse]

/-- C4 counterexample: the strings 2025-01-01 and 2025-01-05 both parse
under the supported formats, yet joining them with the range marker
until yields (no date, no date) rather than the parsed pair, because the
separator loop is only reached when the string contains the marker to
or the marker spaced-hyphen; moreover a range joined by to can come back
with start after end (2025-12-31 to 2025-01-01), refuting the claimed
start-before-end guarantee. -/
theorem C4_counterexample :
    dateFormatsParse "2025-01-01".toList = some ⟨2025, 1, 1⟩ ∧
    dateFormatsParse "2025-01-05".toList = some ⟨2025, 1, 5⟩ ∧
    extract_date_range "2025-01-01 until 2025-01-05".toList = (none, none) ∧
    extract_date_range "2025-12-31 to 2025-01-01".toList =
      (some ⟨2025, 12, 31⟩, some ⟨2025, 1, 1⟩) :=
  ⟨rfl, rfl, rfl, rfl⟩

/-- C4 (amended): for every date string in one of the supported numeric
formats, extract_date_range returns (d, d) with d the parsed date; for
every string that splits into exactly two supported dates around the
marker to (or around the marker spaced-hyphen when to does not occur),
it returns the parsed pair (start, end) with no ordering guarantee
between them; the markers until and through are dead unless to or the
spaced hyphen also occurs, so a string containing only them yields
(no date, no date). -/
theorem C4_extract_date_range_amended :
    (∀ (s : List Char) (d : PyDate), dateFormatsParse (pyStrip s) = some d →
      extract_date_range s = (some d, some d)) ∧
    (∀ (s a b : List Char) (d1 d2 : PyDate),
      pySplit " to ".toList (pyStrip s) = [a, b] →
      dateFormatsParse (pyStrip a) = some d1 →
      dateFormatsParse (pyStrip b) = some d2 →
      extract_date_range s = (some d1, some d2)) ∧
    (∀ (s a b : List Char) (d1 d2 : PyDate),
      containsSub " to ".toList (pyStrip s) = false →
      pySplit " - ".toList (pyStrip s) = [a, b] →
      dateFormatsParse (pyStrip a) = some d1 →
      dateFormatsParse (pyStrip b) = some d2 →
      extract_date_range s = (some d1, some d2)) ∧
    (∀ s : List Char,
      containsSub " to ".toList (pyStrip s) = false →
      containsSub " - ".toList (pyStrip s) = false →
      (containsSub " until ".toList (pyStrip s) = true ∨
        containsSub " through ".toList (pyStrip s) = true) →
      extract_date_range s = (none, none)) :=
  ⟨fun _ _ h => extract_single_of_parse h,
   fun _ _ _ _ _ hs h1 h2 => extract_range_to hs h1 h2,
   fun _ _ _ _ _ ht hs h1 h2 => extract_range_dash ht hs h1 h2,
   fun _ ht hd hw => extract_range_dead_seps ht hd hw⟩

/-- C4 witness: the amended theorem applied at concrete inputs. -/
theorem C4_extract_date_range_amended_witness :
    extract_date_range "2025-03-10".toList =
      (some ⟨2025, 3, 10⟩, some ⟨2025, 3, 10⟩) ∧
    extract_date_range "2025-03-10 to 2025-03-12".toList =
      (some ⟨2025, 3, 10⟩, some ⟨2025, 3, 12⟩) ∧
    extract_date_range "10/03/2025 - 12/03/2025".toList =
      (some ⟨2025, 3, 10⟩, some ⟨2025, 3, 12⟩) ∧
    extract_date_range "2025-03-10 until 2025-03-12".toList = (none, none) :=
  ⟨C4_extract_date_range_amended.1 "2025-03-10".toList ⟨2025, 3, 10⟩ rfl,
   C4_extract_date_range_amended.2.1 "2025-03-10 to 2025-03-12".toList
     "2025-03-10".toList "2025-03-12".toList ⟨2025, 3, 10⟩ ⟨2025, 3, 12⟩
     (by decide) rfl rfl,
   C4_extract_date_range_amended.2.2.1 "10/03/2025 - 12/03/2025".toList
     "10/03/2025".toList "12/03/2025".toList ⟨2025, 3, 10⟩ ⟨2025, 3, 12⟩
     (by decide) (by decide) rfl rfl,
   C4_extract_date_range_amended.2.2.2 "2025-03-10 until 2025-03-12".toList
     (by decide) (by decide) (Or.inl (by decide))⟩

-- ### JSON-shaped values and Python dict semantics (filters.py, geolocation.py)
-- Event records and cache entries are JSON-shaped Python dicts; a dict is
-- modelled as an insertion-ordered association list with unique keys.
-- dSet replaces the (unique) existing entry in place or appends a new
-- one; dDel removes the entry; dGet is None-free field access.

inductive JVal where
  | jnull : JVal
  | jbool : Bool → JVal
  | jnum : ℚ → JVal
  | jstr : List Char → JVal
  | jlist : List JVal → JVal
  | jdict : List (List Char × JVal) → JVal

/-- Python truthiness of a JSON-shaped value. -/
def JVal.truthy : JVal → Bool
  | jnull => false
  | jbool b => b
  | jnum q => decide (q ≠ 0)
  | jstr s => !s.isEmpty
  | jlist l => !l.isEmpty
  | jdict l => !l.isEmpty

abbrev PyDict := List (List Char × JVal)

def dGet : PyDict → List Char → Option JVal
  | [], _ => none
  | (k2, v) :: rest, k => if k2 = k then some v else dGet rest k

def dHas (d : PyDict) (k : List Char) : Bool :=
  (dGet d k).isSome

def dSet : PyDict → List Char → JVal → PyDict
  | [], k, v => [(k, v)]
  | (k2, v2) :: rest, k, v =>
    if k2 = k then (k, v) :: rest else (k2, v2) :: dSet rest k v

def dDel (d : PyDict) (k : List Char) : PyDict :=
  d.filter (fun kv => decide (kv.1 ≠ k))

/-- Truthiness of event[k] (the callers only evaluate it when the key is
present; an absent key reads as null/falsy here). -/
def jTruthyAt (ev : PyDict) (k : List Char) : Bool :=
  ((dGet ev k).getD JVal.jnull).truthy

-- ### ensure_location_fields (filters.py lines 238-340)
-- The body is a fixed sequence of per-field backfill steps on each event
-- dict.  The two labeled-line miners that read locationDescription and
-- locationPhone candidates out of the description value are abstracted
-- as explicit function parameters `dm`/`pm` (the claims settled below
-- are proved for every behaviour of those miners, which includes the
-- regex extraction the source performs); each miner receives the value
-- of the description field (null when absent, matching the source's
-- presence-and-truthiness guard being foldable into the miner).

/-- Backfill step: if the key is absent, set it to the default. -/
def stepDefault (k : List Char) (v : JVal) (ev : PyDict) : PyDict :=
  if dHas ev k then ev else dSet ev k v

/-- Step 3 of the source: categoryId from the legacy category field; the
category key itself is never removed. -/
def stepCategoryId (ev : PyDict) : PyDict :=
  if dHas ev "categoryId".toList then
    if dHas ev "category".toList ∧ jTruthyAt ev "category".toList ∧
        ¬ jTruthyAt ev "categoryId".toList then
      dSet ev "categoryId".toList ((dGet ev "category".toList).getD JVal.jnull)
    else ev
  else
    if dHas ev "category".toList then
      dSet ev "categoryId".toList ((dGet ev "category".toList).getD JVal.jnull)
    else dSet ev "categoryId".toList (JVal.jstr [])

/-- Step 8: locationDescription mined from description when absent. -/
def stepLocDesc (dm : JVal → Option (List Char)) (ev : PyDict) : PyDict :=
  if dHas ev "locationDescription".toList then ev
  else
    dSet ev "locationDescription".toList
      (match dm ((dGet ev "description".toList).getD JVal.jnull) with
       | some s => JVal.jstr s
       | none => JVal.jnull)

/-- Step 9: locationName from the legacy location field when absent. -/
def stepLocName (ev : PyDict) : PyDict :=
  if dHas ev "locationName".toList then ev
  else if dHas ev "location".toList ∧ jTruthyAt ev "location".toList then
    dSet ev "locationName".toList ((dGet ev "location".toList).getD JVal.jnull)
  else dSet ev "locationName".toList (JVal.jstr [])

/-- Step 10: locationPhone mined from description when absent. -/
def stepPhone (pm : JVal → Option (List Char)) (ev : PyDict) : PyDict :=
  if dHas ev "locationPhone".toList then ev
  else
    dSet ev "locationPhone".toList
      (match pm ((dGet ev "description".toList).getD JVal.jnull) with
       | some s => JVal.jstr s
       | none => JVal.jnull)

/-- Step 11: website from the legacy url field; url is deleted only on
this folding path (nothing removes url when website already exists). -/
def stepWebsite (ev : PyDict) : PyDict :=
  if dHas ev "website".toList then ev
  else if dHas ev "url".toList then
    dDel (dSet ev "website".toList ((dGet ev "url".toList).getD JVal.jnull))
      "url".toList
  else dSet ev "website".toList (JVal.jstr [])

/-- Step 13: coordinates present but no name: retry the location field. -/
def stepCoordName (ev : PyDict) : PyDict :=
  if jTruthyAt ev "locationLat".toList ∧ jTruthyAt ev "locationLng".toList ∧
      ¬ jTruthyAt ev "locationName".toList then
    if dHas ev "location".toList ∧ jTruthyAt ev "location".toList then
      dSet ev "locationName".toList ((dGet ev "location".toList).getD JVal.jnull)
    else ev
  else ev

/-- Step 14: the location key is removed unconditionally at the end. -/
def stepDelLocation (ev : PyDict) : PyDict :=
  if dHas ev "location".toList then dDel ev "location".toList else ev

def ensurePre (dm pm : JVal → Option (List Char)) (ev : PyDict) : PyDict :=
  stepPhone pm (stepLocName (stepLocDesc dm
    (stepDefault "locationLng".toList JVal.jnull
      (stepDefault "locationLat".toList JVal.jnull
        (stepDefault "endTimestamp".toList JVal.jnull
          (stepDefault "startTimestamp".toList JVal.jnull
            (stepCategoryId
              (stepDefault "description".toList (JVal.jstr [])
                (stepDefault "name".toList (JVal.jstr []) ev)))))))))

def ensureEventFields (dm pm : JVal → Option (List Char)) (ev : PyDict) : PyDict :=
  stepDelLocation (stepCoordName (stepDefault "image".toList JVal.jnull
    (stepWebsite (ensurePre dm pm ev))))

/-- filters.ensure_location_fields over a batch (non-dict entries are
outside the model; the list structure is preserved). -/
def ensure_location_fields (dm pm : JVal → Option (List Char))
    (evs : List PyDict) : List PyDict :=
  evs.map (ensureEventFields dm pm)

-- ### Dict lemmas

theorem dGet_dSet_self : ∀ (d : PyDict) (k : List Char) (v : JVal),
    dGet (dSet d k v) k = some v := by
  intro d k v
  induction d with
  | nil => simp [dSet, dGet]
  | cons kv rest ih =>
    obtain ⟨k2, v2⟩ := kv
    by_cases hk : k2 = k
    · subst hk
      simp [dSet, dGet]
    · simp [dSet, dGet, hk, ih]

theorem dGet_dSet_ne : ∀ (d : PyDict) {k k' : List Char} (v : JVal),
    ¬ k = k' → dGet (dSet d k v) k' = dGet d k' := by
  intro d k k' v hne
  induction d with
  | nil => simp [dSet, dGet, hne]
  | cons kv rest ih =>
    obtain ⟨k2, v2⟩ := kv
    by_cases hk : k2 = k
    · subst hk
      simp [dSet, dGet, hne]
    · simp [dSet, dGet, hk, ih]

theorem dHas_dSet_self (d : PyDict) (k : List Char) (v : JVal) :
    dHas (dSet d k v) k = true := by
  simp [dHas, dGet_dSet_self]

theorem dHas_dSet_ne (d : PyDict) {k k' : List Char} (v : JVal)
    (h : ¬ k = k') : dHas (dSet d k v) k' = dHas d k' := by
  simp [dHas, dGet_dSet_ne d v h]

theorem dGet_dDel_self : ∀ (d : PyDict) (k : List Char),
    dGet (dDel d k) k = none := by
  intro d k
  induction d with
  | nil => simp [dDel, dGet]
  | cons kv rest ih =>
    obtain ⟨k2, v2⟩ := kv
    by_cases hk : k2 = k
    · subst hk
      simpa [dDel, dGet] using ih
    · simpa [dDel, dGet, hk] using ih

theorem dGet_dDel_ne : ∀ (d : PyDict) {k k' : List Char},
    ¬ k = k' → dGet (dDel d k) k' = dGet d k' := by
  intro d k k' hne
  induction d with
  | nil => simp [dDel, dGet]
  | cons kv rest ih =>
    obtain ⟨k2, v2⟩ := kv
    by_cases hk : k2 = k
    · subst hk
      simpa [dDel, dGet, hne] using ih
    · by_cases hk2 : k2 = k'
      · subst hk2
        simp [dDel, dGet, hk]
      · simpa [dDel, dGet, hk, hk2] using ih

theorem dHas_dDel_self (d : PyDict) (k : List Char) :
    dHas (dDel d k) k = false := by
  simp [dHas, dGet_dDel_self]

theorem dHas_dDel_ne (d : PyDict) {k k' : List Char} (h : ¬ k = k') :
    dHas (dDel d k) k' = dHas d k' := by
  simp [dHas, dGet_dDel_ne d h]

-- ### Per-step effect lemmas for ensure_location_fields

theorem stepDefault_dGet_ne (k : List Char) (v : JVal) (ev : PyDict)
    {k' : List Char} (h : ¬ k = k') :
    dGet (stepDefault k v ev) k' = dGet ev k' := by
  unfold stepDefault
  split
  · rfl
  · exact dGet_dSet_ne ev v h

theorem stepDefault_dHas_self (k : List Char) (v : JVal) (ev : PyDict) :
    dHas (stepDefault k v ev) k = true := by
  unfold stepDefault
  split
  · assumption
  · exact dHas_dSet_self ev k v

theorem stepCategoryId_dGet_ne (ev : PyDict) {k' : List Char}
    (h : ¬ "categoryId".toList = k') :
    dGet (stepCategoryId ev) k' = dGet ev k' := by
  unfold stepCategoryId
  split
  · split
    · exact dGet_dSet_ne ev _ h
    · rfl
  · split
    · exact dGet_dSet_ne ev _ h
    · exact dGet_dSet_ne ev _ h

theorem stepCategoryId_dHas_self (ev : PyDict) :
    dHas (stepCategoryId ev) "categoryId".toList = true := by
  unfold stepCategoryId
  split
  · split
    · exact dHas_dSet_self ev _ _
    · assumption
  · split
    · exact dHas_dSet_self ev _ _
    · exact dHas_dSet_self ev _ _

theorem stepLocDesc_dGet_ne (dm : JVal → Option (List Char)) (ev : PyDict)
    {k' : List Char} (h : ¬ "locationDescription".toList = k') :
    dGet (stepLocDesc dm ev) k' = dGet ev k' := by
  unfold stepLocDesc
  split
  · rfl
  · exact dGet_dSet_ne ev _ h

theorem stepLocName_dGet_ne (ev : PyDict) {k' : List Char}
    (h : ¬ "locationName".toList = k') :
    dGet (stepLocName ev) k' = dGet ev k' := by
  unfold stepLocName
  split
  · rfl
  · split
    · exact dGet_dSet_ne ev _ h
    · exact dGet_dSet_ne ev _ h

theorem stepLocName_dHas_self (ev : PyDict) :
    dHas (stepLocName ev) "locationName".toList = true := by
  unfold stepLocName
  split
  · assumption
  · split
    · exact dHas_dSet_self ev _ _
    · exact dHas_dSet_self ev _ _

theorem stepPhone_dGet_ne (pm : JVal → Option (List Char)) (ev : PyDict)
    {k' : List Char} (h : ¬ "locationPhone".toList = k') :
    dGet (stepPhone pm ev) k' = dGet ev k' := by
  unfold stepPhone
  split
  · rfl
  · exact dGet_dSet_ne ev _ h

theorem stepWebsite_dGet_ne (ev : PyDict) {k' : List Char}
    (h1 : ¬ "website".toList = k') (h2 : ¬ "url".toList = k') :
    dGet (stepWebsite ev) k' = dGet ev k' := by
  unfold stepWebsite
  split
  · rfl
  · split
    · rw [dGet_dDel_ne _ h2]
      exact dGet_dSet_ne ev _ h1
    · exact dGet_dSet_ne ev _ h1

theorem stepWebsite_dHas_self (ev : PyDict) :
    dHas (stepWebsite ev) "website".toList = true := by
  unfold stepWebsite
  split
  · assumption
  · split
    · rw [dHas_dDel_ne _ (by decide)]
      exact dHas_dSet_self ev _ _
    · exact dHas_dSet_self ev _ _

theorem stepWebsite_url_of_no_website (ev : PyDict)
    (h : dHas ev "website".toList = false) :
    dHas (stepWebsite ev) "url".toList = false := by
  unfold stepWebsite
  split
  · rename_i hw
    rw [h] at hw
    cases hw
  · split
    · exact dHas_dDel_self _ _
    · rename_i hurl
      rw [dHas_dSet_ne ev _ (by decide)]
      simpa using hurl

theorem stepWebsite_url_of_no_url (ev : PyDict)
    (h : dHas ev "url".toList = false) :
    dHas (stepWebsite ev) "url".toList = false := by
  unfold stepWebsite
  split
  · exact h
  · split
    · exact dHas_dDel_self _ _
    · rw [dHas_dSet_ne ev _ (by decide)]
      exact h

theorem stepCoordName_dGet_ne (ev : PyDict) {k' : List Char}
    (h : ¬ "locationName".toList = k') :
    dGet (stepCoordName ev) k' = dGet ev k' := by
  unfold stepCoordName
  split
  · split
    · exact dGet_dSet_ne ev _ h
    · rfl
  · rfl

theorem stepCoordName_locName (ev : PyDict)
    (h : dHas ev "locationName".toList = true) :
    dHas (stepCoordName ev) "locationName".toList = true := by
  unfold stepCoordName
  split
  · split
    · exact dHas_dSet_self ev _ _
    · exact h
  · exact h

theorem stepDelLocation_dGet_ne (ev : PyDict) {k' : List Char}
    (h : ¬ "location".toList = k') :
    dGet (stepDelLocation ev) k' = dGet ev k' := by
  unfold stepDelLocation
  split
  · exact dGet_dDel_ne ev h
  · rfl

theorem stepDelLocation_location (ev : PyDict) :
    dHas (stepDelLocation ev) "location".toList = false := by
  unfold stepDelLocation
  split
  · exact dHas_dDel_self ev _
  · rename_i hl
    simpa using hl

theorem ensurePre_dGet_ne (dm pm : JVal → Option (List Char)) (ev : PyDict)
    {k' : List Char}
    (h1 : ¬ "name".toList = k') (h2 : ¬ "description".toList = k')
    (h3 : ¬ "categoryId".toList = k') (h4 : ¬ "startTimestamp".toList = k')
    (h5 : ¬ "endTimestamp".toList = k') (h6 : ¬ "locationLat".toList = k')
    (h7 : ¬ "locationLng".toList = k') (h8 : ¬ "locationDescription".toList = k')
    (h9 : ¬ "locationName".toList = k') (h10 : ¬ "locationPhone".toList = k') :
    dGet (ensurePre dm pm ev) k' = dGet ev k' := by
  unfold ensurePre
  rw [stepPhone_dGet_ne _ _ h10, stepLocName_dGet_ne _ h9,
      stepLocDesc_dGet_ne _ _ h8, stepDefault_dGet_ne _ _ _ h7,
      stepDefault_dGet_ne _ _ _ h6, stepDefault_dGet_ne _ _ _ h5,
      stepDefault_dGet_ne _ _ _ h4, stepCategoryId_dGet_ne _ h3,
      stepDefault_dGet_ne _ _ _ h2, stepDefault_dGet_ne _ _ _ h1]

theorem ensure_location_absent (dm pm : JVal → Option (List Char)) (ev : PyDict) :
    dHas (ensureEventFields dm pm ev) "location".toList = false := by
  unfold ensureEventFields
  exact stepDelLocation_location _

theorem ensure_category_preserved (dm pm : JVal → Option (List Char)) (ev : PyDict) :
    dGet (ensureEventFields dm pm ev) "category".toList = dGet ev "category".toList := by
  unfold ensureEventFields
  rw [stepDelLocation_dGet_ne _ (by decide), stepCoordName_dGet_ne _ (by decide),
      stepDefault_dGet_ne _ _ _ (by decide),
      stepWebsite_dGet_ne _ (by decide) (by decide)]
  exact ensurePre_dGet_ne dm pm ev (by decide) (by decide) (by decide) (by decide)
    (by decide) (by decide) (by decide) (by decide) (by decide) (by decide)

theorem ensure_has_categoryId (dm pm : JVal → Option (List Char)) (ev : PyDict) :
    dHas (ensureEventFields dm pm ev) "categoryId".toList = true := by
  unfold ensureEventFields
  unfold dHas
  rw [stepDelLocation_dGet_ne _ (by decide), stepCoordName_dGet_ne _ (by decide),
      stepDefault_dGet_ne _ _ _ (by decide),
      stepWebsite_dGet_ne _ (by decide) (by decide)]
  unfold ensurePre
  rw [stepPhone_dGet_ne _ _ (by decide), stepLocName_dGet_ne _ (by decide),
      stepLocDesc_dGet_ne _ _ (by decide), stepDefault_dGet_ne _ _ _ (by decide),
      stepDefault_dGet_ne _ _ _ (by decide), stepDefault_dGet_ne _ _ _ (by decide),
      stepDefault_dGet_ne _ _ _ (by decide)]
  exact stepCategoryId_dHas_self _

theorem ensure_has_website (dm pm : JVal → Option (List Char)) (ev : PyDict) :
    dHas (ensureEventFields dm pm ev) "website".toList = true := by
  unfold ensureEventFields
  unfold dHas
  rw [stepDelLocation_dGet_ne _ (by decide), stepCoordName_dGet_ne _ (by decide),
      stepDefault_dGet_ne _ _ _ (by decide)]
  exact stepWebsite_dHas_self _

theorem ensure_has_locationName (dm pm : JVal → Option (List Char)) (ev : PyDict) :
    dHas (ensureEventFields dm pm ev) "locationName".toList = true := by
  unfold ensureEventFields
  unfold dHas
  rw [stepDelLocation_dGet_ne _ (by decide)]
  refine stepCoordName_locName _ ?_
  unfold dHas
  rw [stepDefault_dGet_ne _ _ _ (by decide),
      stepWebsite_dGet_ne _ (by decide) (by decide)]
  unfold ensurePre
  rw [stepPhone_dGet_ne _ _ (by decide)]
  exact stepLocName_dHas_self _

theorem ensure_url_absent_of_no_website (dm pm : JVal → Option (List Char))
    (ev : PyDict) (h : dHas ev "website".toList = false) :
    dHas (ensureEventFields dm pm ev) "url".toList = false := by
  unfold ensureEventFields
  unfold dHas
  rw [stepDelLocation_dGet_ne _ (by decide), stepCoordName_dGet_ne _ (by decide),
      stepDefault_dGet_ne _ _ _ (by decide)]
  refine stepWebsite_url_of_no_website _ ?_
  unfold dHas
  rw [ensurePre_dGet_ne dm pm ev (by decide) (by decide) (by decide) (by decide)
    (by decide) (by decide) (by decide) (by decide) (by decide) (by decide)]
  exact h

theorem ensure_url_absent_of_no_url (dm pm : JVal → Option (List Char))
    (ev : PyDict) (h : dHas ev "url".toList = false) :
    dHas (ensureEventFields dm pm ev) "url".toList = false := by
  unfold ensureEventFields
  unfold dHas
  rw [stepDelLocation_dGet_ne _ (by decide), stepCoordName_dGet_ne _ (by decide),
      stepDefault_dGet_ne _ _ _ (by decide)]
  refine stepWebsite_url_of_no_url _ ?_
  unfold dHas
  rw [ensurePre_dGet_ne dm pm ev (by decide) (by decide) (by decide) (by decide)
    (by decide) (by decide) (by decide) (by decide) (by decide) (by decide)]
  exact h

theorem ensure_fold_category (dm pm : JVal → Option (List Char)) (ev : PyDict)
    (h1 : dHas ev "categoryId".toList = false)
    (h2 : dHas ev "category".toList = true) :
    dGet (ensureEventFields dm pm ev) "categoryId".toList =
      dGet ev "category".toList := by
  unfold ensureEventFields
  rw [stepDelLocation_dGet_ne _ (by decide), stepCoordName_dGet_ne _ (by decide),
      stepDefault_dGet_ne _ _ _ (by decide),
      stepWebsite_dGet_ne _ (by decide) (by decide)]
  unfold ensurePre
  rw [stepPhone_dGet_ne _ _ (by decide), stepLocName_dGet_ne _ (by decide),
      stepLocDesc_dGet_ne _ _ (by decide), stepDefault_dGet_ne _ _ _ (by decide),
      stepDefault_dGet_ne _ _ _ (by decide), stepDefault_dGet_ne _ _ _ (by decide),
      stepDefault_dGet_ne _ _ _ (by decide)]
  have hid : dHas (stepDefault "description".toList (JVal.jstr [])
      (stepDefault "name".toList (JVal.jstr []) ev)) "categoryId".toList = false := by
    unfold dHas
    rw [stepDefault_dGet_ne _ _ _ (by decide), stepDefault_dGet_ne _ _ _ (by decide)]
    exact h1
  have hcat : dGet (stepDefault "description".toList (JVal.jstr [])
      (stepDefault "name".toList (JVal.jstr []) ev)) "category".toList =
      dGet ev "category".toList := by
    rw [stepDefault_dGet_ne _ _ _ (by decide), stepDefault_dGet_ne _ _ _ (by decide)]
  unfold stepCategoryId
  rw [if_neg (by rw [hid]; simp)]
  rw [if_pos (show dHas _ "category".toList = true by unfold dHas; rw [hcat]; exact h2)]
  rw [dGet_dSet_self, hcat]
  obtain ⟨x, hx⟩ := Option.isSome_iff_exists.mp h2
  rw [hx]
  rfl

theorem ensure_fold_website (dm pm : JVal → Option (List Char)) (ev : PyDict)
    (h1 : dHas ev "website".toList = false)
    (h2 : dHas ev "url".toList = true) :
    dGet (ensureEventFields dm pm ev) "website".toList = dGet ev "url".toList := by
  unfold ensureEventFields
  rw [stepDelLocation_dGet_ne _ (by decide), stepCoordName_dGet_ne _ (by decide),
      stepDefault_dGet_ne _ _ _ (by decide)]
  have hw : dHas (ensurePre dm pm ev) "website".toList = false := by
    unfold dHas
    rw [ensurePre_dGet_ne dm pm ev (by decide) (by decide) (by decide) (by decide)
      (by decide) (by decide) (by decide) (by decide) (by decide) (by decide)]
    exact h1
  have hu : dGet (ensurePre dm pm ev) "url".toList = dGet ev "url".toList :=
    ensurePre_dGet_ne dm pm ev (by decide) (by decide) (by decide) (by decide)
      (by decide) (by decide) (by decide) (by decide) (by decide) (by decide)
  unfold stepWebsite
  rw [if_neg (by rw [hw]; simp)]
  rw [if_pos (show dHas _ "url".toList = true by unfold dHas; rw [hu]; exact h2)]
  rw [dGet_dDel_ne _ (by decide), dGet_dSet_self, hu]
  obtain ⟨x, hx⟩ := Option.isSome_iff_exists.mp h2
  rw [hx]
  rfl

/-- C3 counterexample: the canonicalizer does NOT delete the legacy
category key (it is folded into categoryId but retained), and when a
record already carries a website field an accompanying legacy url key
also survives; only the location key is removed unconditionally. -/
theorem C3_counterexample :
    dHas (ensureEventFields (fun _ => none) (fun _ => none)
      [("category".toList, JVal.jstr "music".toList)]) "category".toList = true ∧
    dHas (ensureEventFields (fun _ => none) (fun _ => none)
      [("website".toList, JVal.jstr "w".toList),
       ("url".toList, JVal.jstr "u".toList)]) "url".toList = true :=
  ⟨rfl, rfl⟩

/-- C3 (amended): for every record entering the Deduplication Engine the
canonicalizer removes the legacy location key unconditionally, removes
the legacy url key exactly on the folding path (website absent), and
folds category into categoryId without deleting the category key; the
canonical keys categoryId, website and locationName are always present
afterwards.  Proved for every behaviour of the two description miners. -/
theorem C3_ensure_location_fields_amended :
    ∀ (dm pm : JVal → Option (List Char)) (ev : PyDict),
      dHas (ensureEventFields dm pm ev) "location".toList = false ∧
      dGet (ensureEventFields dm pm ev) "category".toList =
        dGet ev "category".toList ∧
      (dHas ev "website".toList = false →
        dHas (ensureEventFields dm pm ev) "url".toList = false) ∧
      (dHas ev "url".toList = false →
        dHas (ensureEventFields dm pm ev) "url".toList = false) ∧
      dHas (ensureEventFields dm pm ev) "categoryId".toList = true ∧
      dHas (ensureEventFields dm pm ev) "website".toList = true ∧
      dHas (ensureEventFields dm pm ev) "locationName".toList = true ∧
      (dHas ev "categoryId".toList = false → dHas ev "category".toList = true →
        dGet (ensureEventFields dm pm ev) "categoryId".toList =
          dGet ev "category".toList) ∧
      (dHas ev "website".toList = false → dHas ev "url".toList = true →
        dGet (ensureEventFields dm pm ev) "website".toList =
          dGet ev "url".toList) :=
  fun dm pm ev =>
    ⟨ensure_location_absent dm pm ev,
     ensure_category_preserved dm pm ev,
     fun h => ensure_url_absent_of_no_website dm pm ev h,
     fun h => ensure_url_absent_of_no_url dm pm ev h,
     ensure_has_categoryId dm pm ev,
     ensure_has_website dm pm ev,
     ensure_has_locationName dm pm ev,
     fun h1 h2 => ensure_fold_category dm pm ev h1 h2,
     fun h1 h2 => ensure_fold_website dm pm ev h1 h2⟩

/-- C3 witness: the amended theorem applied to a concrete legacy record
carrying category, location and url. -/
theorem C3_ensure_location_fields_amended_witness :
    dHas (ensureEventFields (fun _ => none) (fun _ => none)
      [("category".toList, JVal.jstr "music".toList),
       ("location".toList, JVal.jstr "Doha".toList),
       ("url".toList, JVal.jstr "u".toList)]) "location".toList = false ∧
    dHas (ensureEventFields (fun _ => none) (fun _ => none)
      [("category".toList, JVal.jstr "music".toList),
       ("location".toList, JVal.jstr "Doha".toList),
       ("url".toList, JVal.jstr "u".toList)]) "url".toList = false ∧
    dGet (ensureEventFields (fun _ => none) (fun _ => none)
      [("category".toList, JVal.jstr "music".toList),
       ("location".toList, JVal.jstr "Doha".toList),
       ("url".toList, JVal.jstr "u".toList)]) "categoryId".toList =
      some (JVal.jstr "music".toList) :=
  ⟨(C3_ensure_location_fields_amended (fun _ => none) (fun _ => none)
      [("category".toList, JVal.jstr "music".toList),
       ("location".toList, JVal.jstr "Doha".toList),
       ("url".toList, JVal.jstr "u".toList)]).1,
   (C3_ensure_location_fields_amended (fun _ => none) (fun _ => none)
      [("category".toList, JVal.jstr "music".toList),
       ("location".toList, JVal.jstr "Doha".toList),
       ("url".toList, JVal.jstr "u".toList)]).2.2.1 rfl,
   ((C3_ensure_location_fields_amended (fun _ => none) (fun _ => none)
      [("category".toList, JVal.jstr "music".toList),
       ("location".toList, JVal.jstr "Doha".toList),
       ("url".toList, JVal.jstr "u".toList)]).2.2.2.2.2.2.2.1 rfl rfl).trans rfl⟩

-- ### intelligent_deduplication (filters.py lines 27-97)
-- The grouping key that the source renders as a string
-- f"{key_location}_{startTimestamp}" is modelled structurally: the
-- coordinate part keeps the value rounded at 6 decimals plus the sign
-- bit that a formatted negative zero would carry, the name part is the
-- [a-z0-9]-normalized name (which can never collide with a coordinate
-- string, as the latter contains a decimal point), and the temporal
-- part distinguishes the timestamp and raw-date alternatives (the
-- degenerate collision of a raw date string that equals the decimal
-- rendering of another record's timestamp is not modelled).  Events
-- carry an opaque payload so the theorems show the survivor is the
-- original record.

structure DedupEvent (α : Type) where
  locationName : Option (List Char)
  location : Option (List Char)
  startTimestamp : Option Int
  locationLat : Option ℚ
  locationLng : Option ℚ
  date : Option (List Char)
  description : List Char
  payload : α

/-- f"{q:.6f}" of a float, structurally: the value rounded to 6 decimal
places and whether the rendered text carries a minus sign while rounding
to zero.  (Exact representational halves cannot occur for binary float
inputs, so round-half direction is immaterial.) -/
def fmt6 (q : ℚ) : Int × Bool :=
  (round (q * 1000000), decide (q < 0) && decide (round (q * 1000000) = (0 : Int)))

/-- filters.get_normalized_name: lowercase, keep only [a-z0-9]. -/
def get_normalized_name (name : List Char) : List Char :=
  (name.map Char.toLower).filter (fun c => ('a' ≤ c && c ≤ 'z') || isDigitCh c)

inductive LocPart where
  | coords : Int × Bool → Int × Bool → LocPart
  | locname : List Char → LocPart
deriving DecidableEq

inductive TimePart where
  | ts : Int → TimePart
  | rawdate : List Char → TimePart
deriving DecidableEq

abbrev GroupKey := LocPart × TimePart

/-- event.get('locationName') or event.get('location') or ''. -/
def firstTruthyStr (a b : Option (List Char)) : List Char :=
  match a with
  | some s => if !s.isEmpty then s else
      match b with
      | some t => if !t.isEmpty then t else []
      | none => []
  | none =>
    match b with
    | some t => if !t.isEmpty then t else []
    | none => []

/-- The grouping key of one event (filters.py lines 47-69). -/
def groupKey (e : DedupEvent α) : GroupKey :=
  let locPart : LocPart :=
    match e.locationLat, e.locationLng with
    | some la, some ln => LocPart.coords (fmt6 la) (fmt6 ln)
    | _, _ =>
      LocPart.locname (get_normalized_name (firstTruthyStr e.locationName e.location))
  let timePart : TimePart :=
    match e.startTimestamp with
    | some t => TimePart.ts t
    | none => TimePart.rawdate (e.date.getD [])
  (locPart, timePart)

/-- event_groups[group_key].append(event), creating the key at the end
of the insertion order when new. -/
def addToGroups (gs : List (GroupKey × List (DedupEvent α))) (k : GroupKey)
    (e : DedupEvent α) : List (GroupKey × List (DedupEvent α)) :=
  match gs with
  | [] => [(k, [e])]
  | (k2, l) :: rest =>
    if k2 = k then (k2, l ++ [e]) :: rest else (k2, l) :: addToGroups rest k e

def buildGroups (evs : List (DedupEvent α)) :
    List (GroupKey × List (DedupEvent α)) :=
  evs.foldl (fun gs e => addToGroups gs (groupKey e) e) []

/-- Stable insertion into a description-length-descending list: the new
element goes before the first element whose length does not exceed it,
which reproduces the stable reverse=True sort of the source. -/
def insertByLen (e : DedupEvent α) : List (DedupEvent α) → List (DedupEvent α)
  | [] => [e]
  | f :: fs =>
    if f.description.length ≤ e.description.length then e :: f :: fs
    else f :: insertByLen e fs

/-- sorted(group, key=len(description), reverse=True) (stable). -/
def pySortedByLenDesc (l : List (DedupEvent α)) : List (DedupEvent α) :=
  l.foldr insertByLen []

/-- filters.intelligent_deduplication. -/
def intelligent_deduplication (evs : List (DedupEvent α)) : List (DedupEvent α) :=
  if evs.isEmpty then []
  else
    (buildGroups evs).filterMap fun kg =>
      if 1 < kg.2.length then (pySortedByLenDesc kg.2).head? else kg.2.head?

-- Statement-side rendering of the claimed behaviour, written from the
-- claim: one survivor per key in first-appearance key order, the
-- survivor being the longest-description member (earliest on ties).

def keysInFirstAppearanceOrder (ks : List GroupKey) : List GroupKey :=
  ks.foldl (fun acc k => if k ∈ acc then acc else acc ++ [k]) []

def pickLonger (b f : DedupEvent α) : DedupEvent α :=
  if b.description.length < f.description.length then f else b

/-- The longest-description member of a group, first such on ties. -/
def longestDescFirst : List (DedupEvent α) → Option (DedupEvent α)
  | [] => none
  | e :: es => some (es.foldl pickLonger e)

def dedupSpec (evs : List (DedupEvent α)) : List (DedupEvent α) :=
  (keysInFirstAppearanceOrder (evs.map groupKey)).filterMap fun k =>
    longestDescFirst (evs.filter (fun e => groupKey e = k))

-- ### Lemmas for the deduplication equivalence

theorem mem_foldl_firstAppear {k : GroupKey} :
    ∀ (ks : List GroupKey) (acc : List GroupKey),
      (k ∈ ks.foldl (fun acc k => if k ∈ acc then acc else acc ++ [k]) acc ↔
        k ∈ acc ∨ k ∈ ks) := by
  intro ks
  induction ks with
  | nil => intro acc; simp
  | cons k1 ks ih =>
    intro acc
    simp only [List.foldl_cons]
    rw [ih]
    by_cases h1 : k1 ∈ acc
    · simp only [if_pos h1, List.mem_cons]
      constructor
      · rintro (ha | hks)
        · exact Or.inl ha
        · exact Or.inr (Or.inr hks)
      · rintro (ha | he | hks)
        · exact Or.inl ha
        · subst he; exact Or.inl h1
        · exact Or.inr hks
    · simp only [if_neg h1, List.mem_append, List.mem_singleton, List.mem_cons]
      tauto

theorem mem_keysInFirstAppearanceOrder {k : GroupKey} {ks : List GroupKey} :
    k ∈ keysInFirstAppearanceOrder ks ↔ k ∈ ks := by
  unfold keysInFirstAppearanceOrder
  rw [mem_foldl_firstAppear]
  simp

theorem kfao_append (ks : List GroupKey) (k : GroupKey) :
    keysInFirstAppearanceOrder (ks ++ [k]) =
      if k ∈ keysInFirstAppearanceOrder ks then keysInFirstAppearanceOrder ks
      else keysInFirstAppearanceOrder ks ++ [k] := by
  unfold keysInFirstAppearanceOrder
  rw [List.foldl_append]
  rfl

theorem addToGroups_map_fst {α : Type} (gs : List (GroupKey × List (DedupEvent α)))
    (k : GroupKey) (e : DedupEvent α) :
    (addToGroups gs k e).map Prod.fst =
      if k ∈ gs.map Prod.fst then gs.map Prod.fst else gs.map Prod.fst ++ [k] := by
  induction gs with
  | nil => simp [addToGroups]
  | cons kg rest ih =>
    obtain ⟨k2, l⟩ := kg
    by_cases hk : k2 = k
    · subst hk
      simp [addToGroups]
    · simp only [addToGroups, if_neg hk, List.map_cons, ih]
      by_cases hmem : k ∈ rest.map Prod.fst
      · simp [hmem, Ne.symm hk]
      · simp [hmem, Ne.symm hk]

theorem addToGroups_snd {α : Type} {p : List (DedupEvent α)}
    {e : DedupEvent α} :
    ∀ {gs : List (GroupKey × List (DedupEvent α))},
    (∀ kg ∈ gs, kg.2 = p.filter (fun x => groupKey x = kg.1)) →
    ((gs.map Prod.fst).Nodup) →
    (groupKey e ∉ gs.map Prod.fst →
      p.filter (fun x => groupKey x = groupKey e) = []) →
    ∀ kg ∈ addToGroups gs (groupKey e) e,
      kg.2 = (p ++ [e]).filter (fun x => groupKey x = kg.1) := by
  intro gs
  induction gs with
  | nil =>
    intro _ _ Hk kg hmem
    simp only [addToGroups, List.mem_singleton] at hmem
    subst hmem
    simp only [List.filter_append]
    rw [Hk (by simp)]
    simp
  | cons kg0 rest ih =>
    intro Hsnd Hnodup Hk kg hmem
    obtain ⟨k2, l⟩ := kg0
    by_cases hk : k2 = groupKey e
    · subst hk
      unfold addToGroups at hmem
      rw [if_pos rfl] at hmem
      rcases List.mem_cons.mp hmem with heq | hrest
      · subst heq
        have hl := Hsnd (groupKey e, l) (by simp)
        simp only at hl
        simp only [List.filter_append]
        rw [← hl]
        simp
      · have hne : ¬ kg.1 = groupKey e := by
          intro hcon
          have hkin : kg.1 ∈ rest.map Prod.fst :=
            List.mem_map.mpr ⟨kg, hrest, rfl⟩
          rw [hcon] at hkin
          simp only [List.map_cons, List.nodup_cons] at Hnodup
          exact Hnodup.1 hkin
        rw [Hsnd kg (by simp [hrest])]
        simp only [List.filter_append]
        have hnil : (List.filter (fun x => decide (groupKey x = kg.1)) [e]) = [] := by
          have : ¬ groupKey e = kg.1 := fun hcon => hne hcon.symm
          simp [List.filter, this]
        rw [hnil, List.append_nil]
    · unfold addToGroups at hmem
      rw [if_neg hk] at hmem
      rcases List.mem_cons.mp hmem with heq | hrest
      · subst heq
        have hl := Hsnd (k2, l) (by simp)
        simp only at hl
        rw [hl]
        simp only [List.filter_append]
        have hnil : (List.filter (fun x => decide (groupKey x = k2)) [e]) = [] := by
          have : ¬ groupKey e = k2 := fun hcon => hk hcon.symm
          simp [List.filter, this]
        rw [hnil, List.append_nil]
      · refine ih ?_ ?_ ?_ kg hrest
        · intro kg2 hm
          exact Hsnd kg2 (by simp [hm])
        · simp only [List.map_cons, List.nodup_cons] at Hnodup
          exact Hnodup.2
        · intro hnot
          refine Hk ?_
          simp only [List.map_cons, List.mem_cons]
          rintro (hc | hc)
          · exact hk hc.symm
          · exact hnot hc

theorem addToGroups_nodup {α : Type} {gs : List (GroupKey × List (DedupEvent α))}
    (h : (gs.map Prod.fst).Nodup) (k : GroupKey) (e : DedupEvent α) :
    ((addToGroups gs k e).map Prod.fst).Nodup := by
  rw [addToGroups_map_fst]
  by_cases hmem : k ∈ gs.map Prod.fst
  · rw [if_pos hmem]; exact h
  · rw [if_neg hmem]
    rw [List.nodup_append]
    exact ⟨h, List.nodup_singleton k, by simpa using hmem⟩

theorem buildGroups_append {α : Type} (evs : List (DedupEvent α)) (e : DedupEvent α) :
    buildGroups (evs ++ [e]) = addToGroups (buildGroups evs) (groupKey e) e := by
  unfold buildGroups
  rw [List.foldl_append]
  rfl

theorem buildGroups_spec {α : Type} (evs : List (DedupEvent α)) :
    (buildGroups evs).map Prod.fst =
      keysInFirstAppearanceOrder (evs.map groupKey) ∧
    ((buildGroups evs).map Prod.fst).Nodup ∧
    ∀ kg ∈ buildGroups evs, kg.2 = evs.filter (fun x => groupKey x = kg.1) := by
  induction evs using List.reverseRecOn with
  | nil =>
    refine ⟨rfl, by simp [buildGroups], ?_⟩
    intro kg hmem
    simp [buildGroups] at hmem
  | append_singleton l a ih =>
    obtain ⟨ihkeys, ihnodup, ihsnd⟩ := ih
    rw [buildGroups_append]
    refine ⟨?_, addToGroups_nodup ihnodup _ _, ?_⟩
    · rw [addToGroups_map_fst, List.map_append, List.map_singleton, kfao_append, ihkeys]
    · have Hk : groupKey a ∉ (buildGroups l).map Prod.fst →
          l.filter (fun x => groupKey x = groupKey a) = [] := by
        intro hnot
        rw [ihkeys, mem_keysInFirstAppearanceOrder] at hnot
        rw [List.filter_eq_nil_iff]
        intro x hx
        simp only [decide_eq_true_eq]
        intro hcon
        exact hnot (List.mem_map.mpr ⟨x, hx, hcon⟩)
      exact addToGroups_snd ihsnd ihnodup Hk

theorem head_insertByLen {α : Type} (e : DedupEvent α) (l : List (DedupEvent α)) :
    (insertByLen e l).head? = some (match l.head? with
      | none => e
      | some f => if f.description.length ≤ e.description.length then e else f) := by
  cases l with
  | nil => rfl
  | cons f fs =>
    unfold insertByLen
    by_cases h : f.description.length ≤ e.description.length
    · rw [if_pos h]
      simp [h]
    · rw [if_neg h]
      simp [h]

theorem pickLonger_assoc {α : Type} (e f b : DedupEvent α) :
    pickLonger (pickLonger e f) b = pickLonger e (pickLonger f b) := by
  unfold pickLonger
  split_ifs <;> first | rfl | omega

theorem foldl_pickLonger {α : Type} :
    ∀ (es : List (DedupEvent α)) (e : DedupEvent α),
      es.foldl pickLonger e = (match longestDescFirst es with
        | none => e
        | some b => pickLonger e b) := by
  intro es
  induction es with
  | nil => intro e; rfl
  | cons f fs ih =>
    intro e
    simp only [List.foldl_cons]
    rw [ih (pickLonger e f)]
    have hbf : longestDescFirst (f :: fs) = some (fs.foldl pickLonger f) := rfl
    rw [hbf, ih f]
    cases hfs : longestDescFirst fs with
    | none => rfl
    | some b =>
      simp only
      exact pickLonger_assoc e f b

theorem head_pySorted {α : Type} (l : List (DedupEvent α)) :
    (pySortedByLenDesc l).head? = longestDescFirst l := by
  induction l with
  | nil => rfl
  | cons e es ih =>
    show (insertByLen e (pySortedByLenDesc es)).head? = _
    rw [head_insertByLen, ih]
    have : longestDescFirst (e :: es) = some (es.foldl pickLonger e) := rfl
    rw [this, foldl_pickLonger]
    cases hfs : longestDescFirst es with
    | none => rfl
    | some b =>
      simp only
      unfold pickLonger
      by_cases h : b.description.length ≤ e.description.length
      · rw [if_pos h, if_neg (by omega)]
      · rw [if_neg h, if_pos (by omega)]

theorem selector_eq_longest {α : Type} (g : List (DedupEvent α)) :
    (if 1 < g.length then (pySortedByLenDesc g).head? else g.head?) =
      longestDescFirst g := by
  by_cases h : 1 < g.length
  · rw [if_pos h]
    exact head_pySorted g
  · rw [if_neg h]
    match g with
    | [] => rfl
    | [x] => rfl
    | x :: y :: r =>
      exfalso
      apply h
      simp only [List.length_cons]
      omega

theorem filterMap_congr_mem {β γ : Type} {l : List β} {f g : β → Option γ}
    (h : ∀ x ∈ l, f x = g x) : l.filterMap f = l.filterMap g := by
  induction l with
  | nil => rfl
  | cons x xs ih =>
    rw [List.filterMap_cons, List.filterMap_cons, h x (by simp),
      ih (fun y hy => h y (by simp [hy]))]

/-- C5: intelligent_deduplication is exactly the claimed behaviour: the
input collapses to one survivor per group key (coordinates formatted at
6 decimals plus startTimestamp when both coordinates exist, else
normalized location name plus startTimestamp, else the raw date string),
the survivor being the group member with the longest description with
ties broken by first encounter, and the output following the
first-appearance order of the group keys.  The payload type shows the
survivor is the original record. -/
theorem C5_intelligent_deduplication_spec {α : Type} (evs : List (DedupEvent α)) :
    intelligent_deduplication evs = dedupSpec evs := by
  unfold intelligent_deduplication dedupSpec
  by_cases hemp : evs.isEmpty
  · rw [if_pos hemp]
    have hnil : evs = [] := by
      cases evs
      · rfl
      · simp [List.isEmpty] at hemp
    subst hnil
    rfl
  · rw [if_neg hemp]
    obtain ⟨hkeys, hnodup, hsnd⟩ := buildGroups_spec evs
    have hstep1 : (buildGroups evs).filterMap (fun kg =>
        if 1 < kg.2.length then (pySortedByLenDesc kg.2).head? else kg.2.head?) =
      (buildGroups evs).filterMap (fun kg =>
        longestDescFirst (evs.filter (fun x => groupKey x = kg.1))) := by
      apply filterMap_congr_mem
      intro kg hm
      rw [selector_eq_longest, hsnd kg hm]
    rw [hstep1]
    have hstep2 : (buildGroups evs).filterMap (fun kg =>
        longestDescFirst (evs.filter (fun x => groupKey x = kg.1))) =
      ((buildGroups evs).map Prod.fst).filterMap (fun k =>
        longestDescFirst (evs.filter (fun x => groupKey x = k))) := by
      rw [List.filterMap_map]
      rfl
    rw [hstep2, hkeys]

-- ### geolocation.get_location_coordinates (geolocation.py lines 124-201)
-- The HTTP geocoding call (request, status/result decoding and every
-- caught exception path) is the external collaborator; it is modelled
-- as the resolver function: found coordinates, or any failure (non-OK
-- status, empty results, timeout, connection or other error), all of
-- which the source maps to a null-coordinate result without caching.
-- The persisted cache is threaded explicitly; the two flags record
-- whether the call consulted the cache and whether it invoked the
-- external resolver.

structure LocData where
  lat : Option ℚ
  lng : Option ℚ
  name : List Char
deriving DecidableEq

inductive GeoResult where
  | found : ℚ → ℚ → GeoResult
  | failed : GeoResult
deriving DecidableEq

abbrev GeoCache := List (List Char × LocData)

def cGet : GeoCache → List Char → Option LocData
  | [], _ => none
  | (k2, v) :: rest, k => if k2 = k then some v else cGet rest k

def cSet : GeoCache → List Char → LocData → GeoCache
  | [], k, v => [(k, v)]
  | (k2, v2) :: rest, k, v =>
    if k2 = k then (k, v) :: rest else (k2, v2) :: cSet rest k v

def invalid_locations : List (List Char) :=
  ["N/A".toList, "TBD".toList, "To be announced".toList, "TBA".toList,
   "To be determined".toList, "Location TBA".toList, "Venue TBA".toList]

/-- 24.5 <= lat <= 26.5 and 50.5 <= lng <= 52.5 (the half-integral
bounds are written as exact rationals). -/
def inQatarBounds (lat lng : ℚ) : Bool :=
  decide (mkRat 49 2 ≤ lat) && decide (lat ≤ mkRat 53 2) &&
  decide (mkRat 101 2 ≤ lng) && decide (lng ≤ mkRat 105 2)

structure GeoCallResult where
  res : LocData
  cache : GeoCache
  consultedCache : Bool
  calledExternal : Bool
deriving DecidableEq

def get_location_coordinates (resolver : List Char → GeoResult)
    (cache : GeoCache) (name : List Char) : GeoCallResult :=
  if name.isEmpty || (pyStrip name).isEmpty then
    ⟨⟨none, none, name⟩, cache, false, false⟩
  else if invalid_locations.contains (pyStrip name) then
    ⟨⟨none, none, name⟩, cache, false, false⟩
  else
    match cGet cache name with
    | some entry => ⟨entry, cache, true, false⟩
    | none =>
      match resolver name with
      | GeoResult.found lat lng =>
        if inQatarBounds lat lng then
          ⟨⟨some lat, some lng, name⟩,
           cSet cache name ⟨some lat, some lng, name⟩, true, true⟩
        else ⟨⟨none, none, name⟩, cache, true, true⟩
      | GeoResult.failed => ⟨⟨none, none, name⟩, cache, true, true⟩

theorem cGet_cSet_self : ∀ (c : GeoCache) (k : List Char) (v : LocData),
    cGet (cSet c k v) k = some v := by
  intro c k v
  induction c with
  | nil => simp [cSet, cGet]
  | cons kv rest ih =>
    obtain ⟨k2, v2⟩ := kv
    by_cases hk : k2 = k
    · subst hk
      simp [cSet, cGet]
    · simp [cSet, cGet, hk, ih]

-- Branch characterizations of get_location_coordinates.

theorem geo_blank {resolver : List Char → GeoResult} {cache : GeoCache}
    {name : List Char} (h : (name.isEmpty || (pyStrip name).isEmpty) = true) :
    get_location_coordinates resolver cache name =
      ⟨⟨none, none, name⟩, cache, false, false⟩ := by
  unfold get_location_coordinates
  rw [if_pos h]

theorem geo_placeholder {resolver : List Char → GeoResult} {cache : GeoCache}
    {name : List Char} (h1 : (name.isEmpty || (pyStrip name).isEmpty) = false)
    (h2 : invalid_locations.contains (pyStrip name) = true) :
    get_location_coordinates resolver cache name =
      ⟨⟨none, none, name⟩, cache, false, false⟩ := by
  unfold get_location_coordinates
  rw [if_neg (by simp [h1]), if_pos h2]

theorem geo_cache_hit {resolver : List Char → GeoResult} {cache : GeoCache}
    {name : List Char} {entry : LocData}
    (h1 : (name.isEmpty || (pyStrip name).isEmpty) = false)
    (h2 : invalid_locations.contains (pyStrip name) = false)
    (h3 : cGet cache name = some entry) :
    get_location_coordinates resolver cache name = ⟨entry, cache, true, false⟩ := by
  unfold get_location_coordinates
  rw [if_neg (by simp [h1]), if_neg (by rw [h2]; simp), h3]

theorem geo_miss_found_in {resolver : List Char → GeoResult} {cache : GeoCache}
    {name : List Char} {lat lng : ℚ}
    (h1 : (name.isEmpty || (pyStrip name).isEmpty) = false)
    (h2 : invalid_locations.contains (pyStrip name) = false)
    (h3 : cGet cache name = none) (h4 : resolver name = GeoResult.found lat lng)
    (h5 : inQatarBounds lat lng = true) :
    get_location_coordinates resolver cache name =
      ⟨⟨some lat, some lng, name⟩,
       cSet cache name ⟨some lat, some lng, name⟩, true, true⟩ := by
  unfold get_location_coordinates
  rw [if_neg (by simp [h1]), if_neg (by rw [h2]; simp), h3, h4]
  simp [h5]

theorem geo_miss_found_out {resolver : List Char → GeoResult} {cache : GeoCache}
    {name : List Char} {lat lng : ℚ}
    (h1 : (name.isEmpty || (pyStrip name).isEmpty) = false)
    (h2 : invalid_locations.contains (pyStrip name) = false)
    (h3 : cGet cache name = none) (h4 : resolver name = GeoResult.found lat lng)
    (h5 : inQatarBounds lat lng = false) :
    get_location_coordinates resolver cache name =
      ⟨⟨none, none, name⟩, cache, true, true⟩ := by
  unfold get_location_coordinates
  rw [if_neg (by simp [h1]), if_neg (by rw [h2]; simp), h3, h4]
  simp [h5]

theorem geo_miss_failed {resolver : List Char → GeoResult} {cache : GeoCache}
    {name : List Char}
    (h1 : (name.isEmpty || (pyStrip name).isEmpty) = false)
    (h2 : invalid_locations.contains (pyStrip name) = false)
    (h3 : cGet cache name = none) (h4 : resolver name = GeoResult.failed) :
    get_location_coordinates resolver cache name =
      ⟨⟨none, none, name⟩, cache, true, true⟩ := by
  unfold get_location_coordinates
  rw [if_neg (by simp [h1]), if_neg (by rw [h2]; simp), h3, h4]

/-- C6 counterexample: the claim fails on the code for inputs whose
first resolution does not produce an in-Qatar result.  With a resolver
that returns out-of-bounds coordinates (or fails), nothing is cached,
so the second call with the same input performs an external geocoding
call again (the outputs are still identical). -/
theorem C6_counterexample :
    (get_location_coordinates (fun _ => GeoResult.found 0 0)
      (get_location_coordinates (fun _ => GeoResult.found 0 0) []
        "Nowhere".toList).cache
      "Nowhere".toList).calledExternal = true ∧
    (get_location_coordinates (fun _ => GeoResult.failed)
      (get_location_coordinates (fun _ => GeoResult.failed) []
        "Somewhere".toList).cache
      "Somewhere".toList).calledExternal = true :=
  ⟨by decide, by decide⟩

/-- C6 (amended): two successive calls to get_location_coordinates with
the same name (the cache threaded from the first call into the second,
the external resolver a fixed function) return identical output and
leave the cache unchanged; the second call performs an external call
only when the first call also performed one and came back with null
coordinates (failed or out-of-bounds resolutions are deliberately not
cached, so they are retried). -/
theorem C6_cache_idempotence_amended :
    ∀ (resolver : List Char → GeoResult) (cache : GeoCache) (name : List Char),
      (get_location_coordinates resolver
        (get_location_coordinates resolver cache name).cache name).res =
        (get_location_coordinates resolver cache name).res ∧
      (get_location_coordinates resolver
        (get_location_coordinates resolver cache name).cache name).cache =
        (get_location_coordinates resolver cache name).cache ∧
      ((get_location_coordinates resolver
          (get_location_coordinates resolver cache name).cache name).calledExternal
            = true →
        (get_location_coordinates resolver cache name).calledExternal = true ∧
        (get_location_coordinates resolver cache name).res.lat = none ∧
        (get_location_coordinates resolver cache name).res.lng = none) := by
  intro resolver cache name
  by_cases h1 : (name.isEmpty || (pyStrip name).isEmpty) = true
  · rw [geo_blank h1, geo_blank h1]
    exact ⟨rfl, rfl, fun h => by cases h⟩
  · rw [Bool.not_eq_true] at h1
    by_cases h2 : invalid_locations.contains (pyStrip name) = true
    · rw [geo_placeholder h1 h2, geo_placeholder h1 h2]
      exact ⟨rfl, rfl, fun h => by cases h⟩
    · rw [Bool.not_eq_true] at h2
      cases h3 : cGet cache name with
      | some entry =>
        rw [geo_cache_hit h1 h2 h3, geo_cache_hit h1 h2 h3]
        exact ⟨rfl, rfl, fun h => by cases h⟩
      | none =>
        cases h4 : resolver name with
        | found lat lng =>
          by_cases h5 : inQatarBounds lat lng = true
          · rw [geo_miss_found_in h1 h2 h3 h4 h5]
            rw [geo_cache_hit h1 h2 (cGet_cSet_self cache name _)]
            exact ⟨rfl, rfl, fun h => by cases h⟩
          · rw [Bool.not_eq_true] at h5
            rw [geo_miss_found_out h1 h2 h3 h4 h5,
                geo_miss_found_out h1 h2 h3 h4 h5]
            exact ⟨rfl, rfl, fun _ => ⟨rfl, rfl, rfl⟩⟩
        | failed =>
          rw [geo_miss_failed h1 h2 h3 h4, geo_miss_failed h1 h2 h3 h4]
          exact ⟨rfl, rfl, fun _ => ⟨rfl, rfl, rfl⟩⟩

/-- C6 witness: the amended theorem at a concrete resolver, cache and
name (a cache miss that resolves inside Qatar, so the second call is
answered from the cache). -/
theorem C6_cache_idempotence_amended_witness :
    (get_location_coordinates (fun _ => GeoResult.found 25 51)
      (get_location_coordinates (fun _ => GeoResult.found 25 51) []
        "Doha Corniche".toList).cache "Doha Corniche".toList).res =
      (get_location_coordinates (fun _ => GeoResult.found 25 51) []
        "Doha Corniche".toList).res :=
  (C6_cache_idempotence_amended (fun _ => GeoResult.found 25 51) []
    "Doha Corniche".toList).1

/-- C10: the placeholder short-circuit of get_location_coordinates
compares the stripped input case-sensitively against the seven
placeholder strings; an exact match returns null coordinates without
consulting the cache or the external resolver, while any other
non-blank input (for example a case variant such as tba) proceeds to
the cache lookup and, on a miss, to an external resolution call. -/
theorem C10_placeholder_short_circuit :
    ∀ (resolver : List Char → GeoResult) (cache : GeoCache) (name : List Char),
      (invalid_locations.contains (pyStrip name) = true →
        get_location_coordinates resolver cache name =
          ⟨⟨none, none, name⟩, cache, false, false⟩) ∧
      (invalid_locations.contains (pyStrip name) = false →
        (pyStrip name).isEmpty = false →
        (get_location_coordinates resolver cache name).consultedCache = true ∧
        (cGet cache name = none →
          (get_location_coordinates resolver cache name).calledExternal = true)) := by
  intro resolver cache name
  constructor
  · intro h2
    have h1 : (name.isEmpty || (pyStrip name).isEmpty) = false := by
      have hstrip : (pyStrip name).isEmpty = false := by
        cases hx : pyStrip name with
        | nil => rw [hx] at h2; cases h2
        | cons c r => rfl
      have hname : name.isEmpty = false := by
        cases hy : name with
        | nil =>
          rw [hy] at h2
          cases h2
        | cons c r => rfl
      rw [hstrip, hname]
      rfl
    exact geo_placeholder h1 h2
  · intro h2 hne
    have h1 : (name.isEmpty || (pyStrip name).isEmpty) = false := by
      have hname : name.isEmpty = false := by
        cases hy : name with
        | nil =>
          rw [hy] at hne
          cases hne
        | cons c r => rfl
      rw [hname, hne]
      rfl
    constructor
    · cases h3 : cGet cache name with
      | some entry => rw [geo_cache_hit h1 h2 h3]
      | none =>
        cases h4 : resolver name with
        | found lat lng =>
          by_cases h5 : inQatarBounds lat lng = true
          · rw [geo_miss_found_in h1 h2 h3 h4 h5]
          · rw [Bool.not_eq_true] at h5
            rw [geo_miss_found_out h1 h2 h3 h4 h5]
        | failed => rw [geo_miss_failed h1 h2 h3 h4]
    · intro h3
      cases h4 : resolver name with
      | found lat lng =>
        by_cases h5 : inQatarBounds lat lng = true
        · rw [geo_miss_found_in h1 h2 h3 h4 h5]
        · rw [Bool.not_eq_true] at h5
          rw [geo_miss_found_out h1 h2 h3 h4 h5]
      | failed => rw [geo_miss_failed h1 h2 h3 h4]

/-- C10 witness: the exact placeholder TBA short-circuits (cache and
resolver untouched), while the case variant tba misses the empty cache
and invokes the resolver. -/
theorem C10_placeholder_short_circuit_witness :
    get_location_coordinates (fun _ => GeoResult.failed) [] "TBA".toList =
      ⟨⟨none, none, "TBA".toList⟩, [], false, false⟩ ∧
    (get_location_coordinates (fun _ => GeoResult.failed) []
      "tba".toList).consultedCache = true ∧
    (get_location_coordinates (fun _ => GeoResult.failed) []
      "tba".toList).calledExternal = true :=
  ⟨(C10_placeholder_short_circuit (fun _ => GeoResult.failed) []
      "TBA".toList).1 (by decide),
   ((C10_placeholder_short_circuit (fun _ => GeoResult.failed) []
      "tba".toList).2 (by decide) (by decide)).1,
   ((C10_placeholder_short_circuit (fun _ => GeoResult.failed) []
      "tba".toList).2 (by decide) (by decide)).2 rfl⟩

-- ### geolocation cache loading and migration (geolocation.py 40-115)
-- The float() conversion of the delimited legacy encoding is abstracted
-- as the parseFloat parameter (the claims are proved for every parsing
-- behaviour); the JSON file contents arrive as an optional JVal, none
-- standing for an unparseable file (json.load raising); a parsed value
-- that is not a dict hits the same except-branch because .items() fails,
-- so it also yields the empty cache.

def tripleDict (lat lng nameV : JVal) : JVal :=
  JVal.jdict [("lat".toList, lat), ("lng".toList, lng), ("name".toList, nameV)]

def migrate_entry (parseFloat : List Char → Option ℚ)
    (location_name : List Char) (value : JVal) : JVal :=
  match value with
  | JVal.jstr s =>
    if containsSub "|".toList s then
      match pySplit "|".toList s with
      | p0 :: p1 :: p2 :: _ =>
        match parseFloat p0, parseFloat p1 with
        | some lat, some lng =>
          tripleDict (JVal.jnum lat) (JVal.jnum lng) (JVal.jstr p2)
        | _, _ => tripleDict JVal.jnull JVal.jnull (JVal.jstr location_name)
      | _ => tripleDict JVal.jnull JVal.jnull (JVal.jstr location_name)
    else tripleDict JVal.jnull JVal.jnull (JVal.jstr s)
  | JVal.jdict kvs =>
    if dHas kvs "lat".toList && dHas kvs "lng".toList && dHas kvs "name".toList then
      JVal.jdict kvs
    else
      tripleDict ((dGet kvs "lat".toList).getD JVal.jnull)
        ((dGet kvs "lng".toList).getD JVal.jnull)
        ((dGet kvs "name".toList).getD (JVal.jstr location_name))
  | _ => tripleDict JVal.jnull JVal.jnull (JVal.jstr location_name)

def migrate_old_cache_format (parseFloat : List Char → Option ℚ)
    (cache : List (List Char × JVal)) : List (List Char × JVal) :=
  cache.map (fun kv => (kv.1, migrate_entry parseFloat kv.1 kv.2))

def load_geolocation_cache (parseFloat : List Char → Option ℚ)
    (parsed : Option JVal) : List (List Char × JVal) :=
  match parsed with
  | some (JVal.jdict kvs) => migrate_old_cache_format parseFloat kvs
  | _ => []

/-- Does the value carry at least the keys lat, lng and name? -/
def hasTripleKeys : JVal → Bool
  | JVal.jdict kvs =>
    dHas kvs "lat".toList && dHas kvs "lng".toList && dHas kvs "name".toList
  | _ => false

/-- Does the value carry exactly the keys lat, lng and name? -/
def isExactTriple : JVal → Bool
  | JVal.jdict kvs =>
    dHas kvs "lat".toList && dHas kvs "lng".toList && dHas kvs "name".toList &&
      (kvs.map Prod.fst).all
        (fun k => k = "lat".toList || k = "lng".toList || k = "name".toList)
  | _ => false

theorem hasTripleKeys_tripleDict (lat lng nameV : JVal) :
    hasTripleKeys (tripleDict lat lng nameV) = true := by
  rfl

theorem isExactTriple_tripleDict (lat lng nameV : JVal) :
    isExactTriple (tripleDict lat lng nameV) = true := by
  rfl

theorem migrate_entry_hasTriple (parseFloat : List Char → Option ℚ)
    (n : List Char) (v : JVal) :
    hasTripleKeys (migrate_entry parseFloat n v) = true := by
  unfold migrate_entry
  match v with
  | JVal.jnull => exact hasTripleKeys_tripleDict _ _ _
  | JVal.jbool b => exact hasTripleKeys_tripleDict _ _ _
  | JVal.jnum q => exact hasTripleKeys_tripleDict _ _ _
  | JVal.jlist l => exact hasTripleKeys_tripleDict _ _ _
  | JVal.jstr s =>
    simp only
    split
    · split
      · split
        · exact hasTripleKeys_tripleDict _ _ _
        · exact hasTripleKeys_tripleDict _ _ _
      · exact hasTripleKeys_tripleDict _ _ _
    · exact hasTripleKeys_tripleDict _ _ _
  | JVal.jdict kvs =>
    simp only
    split
    · rename_i hkeys
      simpa [hasTripleKeys] using hkeys
    · exact hasTripleKeys_tripleDict _ _ _

theorem migrate_entry_exact_of_not_triple (parseFloat : List Char → Option ℚ)
    (n : List Char) (v : JVal) (h : hasTripleKeys v = false) :
    isExactTriple (migrate_entry parseFloat n v) = true := by
  unfold migrate_entry
  match v with
  | JVal.jnull => exact isExactTriple_tripleDict _ _ _
  | JVal.jbool b => exact isExactTriple_tripleDict _ _ _
  | JVal.jnum q => exact isExactTriple_tripleDict _ _ _
  | JVal.jlist l => exact isExactTriple_tripleDict _ _ _
  | JVal.jstr s =>
    simp only
    split
    · split
      · split
        · exact isExactTriple_tripleDict _ _ _
        · exact isExactTriple_tripleDict _ _ _
      · exact isExactTriple_tripleDict _ _ _
    · exact isExactTriple_tripleDict _ _ _
  | JVal.jdict kvs =>
    simp only
    split
    · rename_i hkeys
      rw [show hasTripleKeys (JVal.jdict kvs) =
        (dHas kvs "lat".toList && dHas kvs "lng".toList && dHas kvs "name".toList)
        from rfl] at h
      rw [hkeys] at h
      cases h
    · exact isExactTriple_tripleDict _ _ _

/-- C9 counterexample: a cache value that is already a dict with the
three keys is kept verbatim, including any extra keys, so an entry of
the loaded cache need not have exactly the keys lat, lng and name. -/
theorem C9_counterexample :
    load_geolocation_cache (fun _ => none)
        (some (JVal.jdict [("p".toList, JVal.jdict
          [("lat".toList, JVal.jnum 1), ("lng".toList, JVal.jnum 2),
           ("name".toList, JVal.jstr "p".toList), ("extra".toList, JVal.jnull)])])) =
      [("p".toList, JVal.jdict
        [("lat".toList, JVal.jnum 1), ("lng".toList, JVal.jnum 2),
         ("name".toList, JVal.jstr "p".toList), ("extra".toList, JVal.jnull)])] ∧
    isExactTriple (JVal.jdict
      [("lat".toList, JVal.jnum 1), ("lng".toList, JVal.jnum 2),
       ("name".toList, JVal.jstr "p".toList), ("extra".toList, JVal.jnull)]) = false :=
  ⟨rfl, rfl⟩

/-- C9 (amended): every entry of the cache returned by
load_geolocation_cache is a dict carrying at least the keys lat, lng
and name; a value that was not already such a dict is replaced by
exactly the structured triple (legacy delimited strings included), a
dict that already has the three keys is kept as is (extra keys
surviving); an unparseable or non-dict cache file yields the empty
cache.  Proved for every behaviour of the float parser. -/
theorem C9_load_cache_amended :
    ∀ (parseFloat : List Char → Option ℚ),
      (∀ (parsed : Option JVal) (entry : List Char × JVal),
        entry ∈ load_geolocation_cache parseFloat parsed →
          hasTripleKeys entry.2 = true) ∧
      (∀ (n : List Char) (v : JVal), hasTripleKeys v = false →
        isExactTriple (migrate_entry parseFloat n v) = true) ∧
      load_geolocation_cache parseFloat none = [] ∧
      (∀ s, load_geolocation_cache parseFloat (some (JVal.jstr s)) = []) := by
  intro parseFloat
  refine ⟨?_, ?_, rfl, fun s => rfl⟩
  · intro parsed entry hmem
    match parsed with
    | none => cases hmem
    | some JVal.jnull => cases hmem
    | some (JVal.jbool b) => cases hmem
    | some (JVal.jnum q) => cases hmem
    | some (JVal.jstr s) => cases hmem
    | some (JVal.jlist l) => cases hmem
    | some (JVal.jdict kvs) =>
      unfold load_geolocation_cache migrate_old_cache_format at hmem
      obtain ⟨kv, hkv, heq⟩ := List.mem_map.mp hmem
      subst heq
      exact migrate_entry_hasTriple parseFloat kv.1 kv.2
  · intro n v h
    exact migrate_entry_exact_of_not_triple parseFloat n v h

/-- C9 witness: the amended theorem applied to a legacy flat-string
cache entry and to an unparseable file. -/
theorem C9_load_cache_amended_witness :
    hasTripleKeys (JVal.jstr "x".toList) = false ∧
    isExactTriple (migrate_entry (fun _ => none) "k".toList
      (JVal.jstr "x".toList)) = true ∧
    load_geolocation_cache (fun _ => none) none = [] :=
  ⟨rfl,
   (C9_load_cache_amended (fun _ => none)).2.1 "k".toList (JVal.jstr "x".toList) rfl,
   (C9_load_cache_amended (fun _ => none)).2.2.1⟩

-- ### extract_ilq_event_urls (URL_Extraction.py lines 32-105)
-- findall over the pattern https://www\.iloveqatar\.net/events/[^)\s]+
-- is a scan for the literal prefix followed by a maximal nonempty run of
-- characters that are neither whitespace nor a closing parenthesis,
-- resuming after each match; urlparse(.).path is modelled for
-- scheme://host/... URLs (parameter/semicolon splitting of the last
-- segment is not modelled, no pipeline URL carries one).

def ilqPrefix : List Char := "https://www.iloveqatar.net/events/".toList

def urlCharOk (c : Char) : Bool := !(isPySpace c) && !(c = ')')

def findUrlsAux : Nat → List Char → List (List Char)
  | 0, _ => []
  | Nat.succ n, s =>
    match s with
    | [] => []
    | _ :: rest =>
      if headMatch ilqPrefix s then
        let after := s.drop ilqPrefix.length
        let run := after.takeWhile urlCharOk
        if run.isEmpty then findUrlsAux n rest
        else (ilqPrefix ++ run) :: findUrlsAux n (after.dropWhile urlCharOk)
      else findUrlsAux n rest

def findUrls (s : List Char) : List (List Char) :=
  findUrlsAux (s.length + 1) s

/-- urlparse(u).path for scheme://host/path?query#fragment shapes. -/
def urlPath (u : List Char) : List Char :=
  match splitFirst "://".toList u with
  | none => u.takeWhile (fun c => !(c = '?') && !(c = '#'))
  | some (_, rest) =>
    let afterHost := rest.dropWhile (fun c => !(c = '/') && !(c = '?') && !(c = '#'))
    match afterHost with
    | '/' :: _ => afterHost.takeWhile (fun c => !(c = '?') && !(c = '#'))
    | _ => []

/-- [p for p in parsed.path.split('/') if p]. -/
def pathParts (u : List Char) : List (List Char) :=
  (pySplit "/".toList (urlPath u)).filter (fun p => !p.isEmpty)

def ilq_category_slugs : List (List Char) :=
  ["entertainment".toList, "sports".toList, "food-dining".toList,
   "arts-culture".toList, "night".toList, "community".toList,
   "social-responsibility".toList, "education".toList, "other".toList,
   "volunteer".toList]

def is_detail_url (u : List Char) : Bool :=
  let parts := pathParts u
  if parts.length < 3 then false
  else if !(parts.getD 0 [] = "events".toList) then false
  else if parts.any (fun p =>
      p = "filter".toList || p = "tag".toList || p = "tags".toList) then false
  else if parts.length = 2 then false
  else if !(ilq_category_slugs.contains (parts.getD 1 [])) then false
  else true

def joinSlash : List (List Char) → List Char
  | [] => []
  | [p] => p
  | p :: rest => p ++ '/' :: joinSlash rest

/-- Tail of the regex (^|-)group(-|\d|[a-z]) after the anchor: the word
group followed by a hyphen, digit or lowercase letter. -/
def groupTail (s : List Char) : Bool :=
  headMatch "group".toList s &&
    (match s.drop 5 with
     | c :: _ => c = '-' || isDigitCh c || ('a' ≤ c && c ≤ 'z')
     | [] => false)

def groupAfterDashAux : List Char → Bool
  | [] => false
  | c :: rest => (c = '-' && groupTail rest) || groupAfterDashAux rest

/-- re.search((^|-)group(-|\d|[a-z]), slug) as a Boolean. -/
def groupMarker (slug : List Char) : Bool :=
  groupTail slug || groupAfterDashAux slug

def round_terms : List (List Char) :=
  ["quarter-final".toList, "quarterfinal".toList, "semi-final".toList,
   "semifinal".toList, "round-of-".toList]

/-- URL_Extraction._is_ilq_u17_individual_match_url (the leading
underscore of the source name is dropped). -/
def is_ilq_u17_individual_match_url (u : List Char) : Bool :=
  let parts := pathParts u
  if parts.length < 3 || !(parts.getD 0 [] = "events".toList) then false
  else
    let slug := pyLower (joinSlash (parts.drop 2))
    if !(containsSub "u-17".toList slug) && !(containsSub "u17".toList slug) then
      false
    else if containsSub "-vs-".toList slug then true
    else if groupMarker slug then true
    else if round_terms.any (fun t => containsSub t slug) then true
    else false

def dedupKeepFilter : List (List Char) → List (List Char) → List (List Char)
  | [], _ => []
  | u :: rest, seen =>
    if is_detail_url u && !(is_ilq_u17_individual_match_url u) &&
        !(seen.contains u) then
      u :: dedupKeepFilter rest (u :: seen)
    else dedupKeepFilter rest seen

def extract_ilq_event_urls (md : List Char) : List (List Char) :=
  dedupKeepFilter (findUrls md) []

/-- The sub-fixture rule as the claim words it, over the slug: the slug
references the U-17 tournament identifier and additionally carries a vs
marker, a group-token marker, or a round-stage keyword. -/
def specSubFixture (slug : List Char) : Bool :=
  (containsSub "u-17".toList slug || containsSub "u17".toList slug) &&
  (containsSub "-vs-".toList slug || groupMarker slug ||
    round_terms.any (fun t => containsSub t slug))

theorem u17_chain_eq (a b v g r : Bool) :
    (if !a && !b then false
     else if v then true else if g then true else if r then true else false) =
      ((a || b) && (v || g || r)) := by
  cases a <;> cases b <;> cases v <;> cases g <;> cases r <;> rfl

/-- C7: the listing extractor keeps the overarching tournament detail
URL and drops its individual sub-fixture URL; and in general, for any
URL whose path splits as events/<category>/<slug...>, the sub-fixture
rule fires exactly when the lowercased slug references the U-17
identifier and carries a vs marker, a group-token marker, or a
round-stage keyword. -/
theorem C7_ilq_url_filter :
    extract_ilq_event_urls
        ("see [link](https://www.iloveqatar.net/events/sports/fifa-u17-qatar) and https://www.iloveqatar.net/events/sports/u-17-team-a-vs-team-b here").toList =
      ["https://www.iloveqatar.net/events/sports/fifa-u17-qatar".toList] ∧
    ∀ (u cat : List Char) (rest : List (List Char)),
      pathParts u = "events".toList :: cat :: rest → rest ≠ [] →
      is_ilq_u17_individual_match_url u =
        specSubFixture (pyLower (joinSlash rest)) := by
  constructor
  · set_option maxRecDepth 8192 in rfl
  · intro u cat rest hp hne
    have hr0 : rest.length ≠ 0 := fun h0 => hne (List.eq_nil_of_length_eq_zero h0)
    unfold is_ilq_u17_individual_match_url
    rw [hp]
    have hc : (decide (("events".toList :: cat :: rest).length < 3) ||
        !(("events".toList :: cat :: rest).getD 0 [] = "events".toList)) = false := by
      simp
      omega
    rw [if_neg (by rw [hc]; simp)]
    simp only [List.drop_succ_cons, List.drop_zero]
    rw [u17_chain_eq]
    rfl

/-- C7 witness: the slug characterization applied to the excluded
sub-fixture URL. -/
theorem C7_ilq_url_filter_witness :
    is_ilq_u17_individual_match_url
        "https://www.iloveqatar.net/events/sports/u-17-team-a-vs-team-b".toList =
      specSubFixture (pyLower (joinSlash ["u-17-team-a-vs-team-b".toList])) ∧
    specSubFixture (pyLower (joinSlash ["u-17-team-a-vs-team-b".toList])) = true :=
  ⟨C7_ilq_url_filter.2
      "https://www.iloveqatar.net/events/sports/u-17-team-a-vs-team-b".toList
      "sports".toList ["u-17-team-a-vs-team-b".toList] rfl (by simp),
   rfl⟩
